import Mathlib

/-!
Verification of the biscuit time-series database core.

This file gives a shallow embedding of the storage engine (`tsdb_fdb.py`)
and of the query-engine scalar/window functions (`query_engine.py`), and
proves the testable properties stated in the specification against it.

Modelling conventions:
* Python `int` is `Int` (or `Nat` where the source guarantees non-negativity,
  such as metric ids, which the source checks against the uint32 range).
* Python floats (`f64` sample values) are modelled as `ℚ`; the byte-level
  `struct` codec is abstracted away except for its range checks: packing a
  window with `"<I"` fails outside `[0, 2^32)`, packing meta with `"<i i B"`
  fails outside the int32 / uint8 ranges, and those failures are modelled
  as errors (`struct.error`).
* Python `//` and `%` are `Int.fdiv` and `Int.fmod` (floor division).
* A raised exception is `Except.error`; since every single-transaction
  operation either commits wholly or is cancelled (`_run_transaction`),
  an error result means the state is unchanged.  The one multi-transaction
  operation (`rewrite_metric_retention`) instead returns the error message
  together with the state as committed so far.
* The FoundationDB keyspace becomes a record of partial maps: `meta`
  (prefix 0x02), `metaInfo` (prefix 0x04), `values` (prefix 0x01, keyed by
  metric id and slot), `descriptors` (tuple tag 5) and `counter` (tuple
  tag 6).  The `last`-record family (tuple tag 3) is never written anywhere
  in the repository and is omitted.  Python dicts of tags become
  association lists with unique keys; Python dict equality becomes the
  order-insensitive `dictEq`.
-/

namespace Biscuit

/-- Largest metric id accepted by `_ensure_u32`. -/
def U32MAX : Nat := 4294967295

/-- `2^31`, bound for the `"<i"` fields of `_META_FMT`. -/
def I32LIM : Int := 2147483648

/-- Tag dictionaries (`Dict[str, str]`) as association lists. -/
abbrev Tags := List (String × String)

/-- First-match lookup, modelling Python `dict.get` / `in`. -/
def tagLookup (t : Tags) (k : String) : Option String :=
  match t with
  | [] => none
  | (k1, v) :: rest => if k1 = k then some v else tagLookup rest k

/-- Python `d[k] = v`: overwrite in place if the key exists, else append. -/
def tagSet (t : Tags) (k v : String) : Tags :=
  match tagLookup t k with
  | some _ => t.map (fun p => if p.1 = k then (p.1, v) else p)
  | none => t ++ [(k, v)]

/-- Python dict equality (`==`): same keys bound to the same values. -/
def dictEq (a b : Tags) : Bool :=
  a.all (fun p => tagLookup b p.1 == some p.2) &&
    b.all (fun p => tagLookup a p.1 == some p.2)

/-- The keys of a tag dictionary. -/
def tagKeys (t : Tags) : List String := t.map Prod.fst

/-- Lexicographic order on tag pairs, as used by Python `sorted(tags.items())`. -/
def tagPairLe (a b : String × String) : Prop :=
  a.1 < b.1 ∨ (a.1 = b.1 ∧ a.2 ≤ b.2)

instance : DecidableRel tagPairLe := fun a b => by
  unfold tagPairLe; exact inferInstance

/-- `sorted(tags.items())`, the canonical tag list used in `_descriptor_key`. -/
def descriptorKeyTags (t : Tags) : Tags := List.insertionSort tagPairLe t

/-- The tag-merge loop of `_ensure_meta_info` (lines 524-532of `tsdb_fdb.py`):
for each `(k, v)` of `add`, set `merged[k] = v` when `k` is absent or already
bound to `v`, and fail when it is bound to a different value. -/
def mergeTags (base add : Tags) : Except String Tags :=
  match add with
  | [] => Except.ok base
  | (k, v) :: rest =>
    match tagLookup base k with
    | none => mergeTags (tagSet base k v) rest
    | some w =>
      if w = v then mergeTags (tagSet base k v) rest
      else Except.error "metric tag already set to a different value"

/-- The JSON meta-info sidecar `{name, tags}` (prefix 0x04). -/
structure MetaInfo where
  name : String
  tags : Tags
deriving DecidableEq, Repr

/-- A slot record `window:LE32, value:LE f32, flags:u8` (`_VALUE_FMT`). -/
structure ValueRecord where
  window : Nat
  value : ℚ
  flags : Nat
deriving DecidableEq, Repr

/-- `FLAG_VALID`. -/
def FLAG_VALID : Nat := 1

/-- The visible keyspace of the store. -/
structure State where
  /-- `0x02 ‖ id` → `(step, slots, type)` (`_META_FMT`). -/
  meta : Nat → Option (Int × Int × Nat)
  /-- `0x04 ‖ id` → JSON `{name, tags}`. -/
  metaInfo : Nat → Option MetaInfo
  /-- `0x01 ‖ id ‖ slot` → value record. -/
  values : Nat → Nat → Option ValueRecord
  /-- tuple `(5, name, sorted_tag_items)` → id (`"<q"`). -/
  descriptors : String → Tags → Option Nat
  /-- tuple `(6,)` → next-id counter (`"<q"`); absent initially. -/
  counter : Option Nat

/-- A store with nothing written yet. -/
def emptyState : State :=
  { meta := fun _ => none
    metaInfo := fun _ => none
    values := fun _ _ => none
    descriptors := fun _ _ => none
    counter := none }

/-- The constructor arguments of `FdbTsdb` (default step and slots). -/
structure Tsdb where
  defaultStep : Int
  defaultSlots : Int

/-- `init_tsdb`: `FdbTsdb(db, default_step=1, default_slots=3600)`. -/
def initTsdb : Tsdb := { defaultStep := 1, defaultSlots := 3600 }

/-- `_ensure_u32`. -/
def ensureU32 (mid : Nat) : Except String Unit :=
  if U32MAX < mid then Except.error "metric_id must fit in uint32" else Except.ok ()

/-- Python `step or default`: `None` and `0` both fall back to the default. -/
def orDefault (x : Option Int) (d : Int) : Int :=
  match x with
  | none => d
  | some v => if v = 0 then d else v

/-- `_write_value`: load meta, compute `slot = (ts // step) % slots` and
`window = ts // step`, overwrite the slot record.  Packing the slot key
(`to_bytes(4, signed=False)`) and the window (`"<I"`) fails outside
`[0, 2^32)`. -/
def writeValue (s : State) (mid : Nat) (ts : Int) (v : ℚ) : Except String State :=
  match ensureU32 mid with
  | Except.error e => Except.error e
  | Except.ok _ =>
    match s.meta mid with
    | none => Except.error "metric not found"
    | some (step, slots, _typ) =>
      if step ≤ 0 then Except.error "step must be positive"
      else
        let wnd : Int := Int.fdiv ts step
        let slot : Int := Int.fmod wnd slots
        if slot < 0 ∨ (U32MAX : Int) < slot then Except.error "slot does not fit in uint32"
        else if wnd < 0 ∨ (U32MAX : Int) < wnd then Except.error "struct.error: window out of range"
        else
          Except.ok
            { s with
              values := fun m j =>
                if m = mid ∧ j = slot.toNat then some ⟨wnd.toNat, v, FLAG_VALID⟩
                else s.values m j }

/-- `_segments_for`. -/
def segmentsFor (startSlot count slots : Nat) : List (Nat × Nat) :=
  if count = 0 then []
  else if startSlot + count ≤ slots then [(startSlot, startSlot + count - 1)]
  else [(startSlot, slots - 1), (0, count - (slots - startSlot) - 1)]

/-- A row returned by `read_range`: `(ts, value, type)`. -/
abbrev Sample := Int × ℚ × Nat

/-- The per-slot body of `_scan_segments`: decode, check `FLAG_VALID`,
reconstruct `ts = window * step`, keep it when within `[startTs, endTs]`. -/
def scanSlot (s : State) (mid : Nat) (startTs endTs : Int) (typ : Nat) (step : Int)
    (slot : Nat) : Option Sample :=
  match s.values mid slot with
  | none => none
  | some r =>
    if r.flags.land FLAG_VALID = 0 then none
    else
      let ts : Int := (r.window : Int) * step
      if ts < startTs ∨ endTs < ts then none else some (ts, r.value, typ)

/-- The segment loop of `_scan_segments` (rows gathered before sorting);
each segment is scanned in ascending slot order, as `tr.get_range` does. -/
def scanSegments (s : State) (mid : Nat) (segs : List (Nat × Nat))
    (startTs endTs : Int) (typ : Nat) (step : Int) : List Sample :=
  segs.flatMap (fun seg =>
    (List.range' seg.1 (seg.2 + 1 - seg.1)).filterMap
      (scanSlot s mid startTs endTs typ step))

/-- Row order used by `rows.sort(key=lambda item: item[0])`. -/
def tsLe (a b : Sample) : Prop := a.1 ≤ b.1

/-- Strict version of `tsLe`. -/
def tsLt (a b : Sample) : Prop := a.1 < b.1

instance : DecidableRel tsLe := fun a b => inferInstanceAs (Decidable (a.1 ≤ b.1))

instance : IsTotal Sample tsLe := ⟨fun a b => Int.le_total a.1 b.1⟩

instance : IsTrans Sample tsLe := ⟨fun _ _ _ h1 h2 => le_trans h1 h2⟩

/-- `rows.sort(key=lambda item: item[0])` (a stable sort by ts). -/
def sortSamples (l : List Sample) : List Sample := List.insertionSort tsLe l

/-- `read_range`. -/
def readRange (s : State) (mid : Nat) (startTs endTs : Int) :
    Except String (List Sample) :=
  if endTs < startTs then Except.ok []
  else
    match ensureU32 mid with
    | Except.error e => Except.error e
    | Except.ok _ =>
      match s.meta mid with
      | none => Except.ok []
      | some (step, slots, typ) =>
        if step = 0 then Except.error "integer division or modulo by zero"
        else
          let startWindow := Int.fdiv startTs step
          let endWindow := Int.fdiv endTs step
          if endWindow < startWindow then Except.ok []
          else
            let slotCount := min slots (endWindow - startWindow + 1)
            if slotCount ≤ 0 then Except.ok []
            else
              let startSlot := Int.fmod startWindow slots
              Except.ok (sortSamples (scanSegments s mid
                (segmentsFor startSlot.toNat slotCount.toNat slots.toNat)
                startTs endTs typ step))

/-- The pure computation of `_ensure_meta_info` on the loaded info record:
returns the updated record and whether it must be written back. -/
def computeMetaInfo (infoOld : Option MetaInfo) (name? : Option String) (tags : Tags) :
    Except String (MetaInfo × Bool) :=
  let info0 := infoOld.getD ⟨"", []⟩
  let nm := name?.getD ""
  match (if nm ≠ "" then
           (if info0.name ≠ "" ∧ info0.name ≠ nm then
              Except.error "metric already registered with a different name"
            else if info0.name = "" then Except.ok ({ info0 with name := nm }, true)
            else Except.ok (info0, false))
         else Except.ok (info0, false) : Except String (MetaInfo × Bool)) with
  | Except.error e => Except.error e
  | Except.ok (info1, changed1) =>
    match (if tags ≠ [] then
             match mergeTags info1.tags tags with
             | Except.error e => Except.error e
             | Except.ok merged =>
               if dictEq merged info1.tags then Except.ok (info1, changed1)
               else Except.ok ({ info1 with tags := merged }, true)
           else Except.ok (info1, changed1) : Except String (MetaInfo × Bool)) with
    | Except.error e => Except.error e
    | Except.ok (info2, changed2) =>
      Except.ok (info2, changed2 || infoOld.isNone)

/-- `_ensure_meta_info`: merge name and tags into the sidecar, writing it
back when something changed or no record was stored. -/
def ensureMetaInfo (s : State) (mid : Nat) (name? : Option String) (tags : Tags) :
    Except String State :=
  match computeMetaInfo (s.metaInfo mid) name? tags with
  | Except.error e => Except.error e
  | Except.ok (info2, shouldWrite) =>
    if shouldWrite then
      Except.ok
        { s with metaInfo := fun m => if m = mid then some info2 else s.metaInfo m }
    else Except.ok s

/-- `_ensure_descriptor`: bind `(name, sorted_tags)` to `mid`, failing when it
is already bound to a different id; a missing or empty name is a no-op. -/
def ensureDescriptorTr (s : State) (mid : Nat) (name? : Option String) (tags : Tags) :
    Except String State :=
  match name? with
  | none => Except.ok s
  | some nm =>
    if nm = "" then Except.ok s
    else
      match s.descriptors nm (descriptorKeyTags tags) with
      | some eid =>
        if eid ≠ mid then Except.error "descriptor already bound to another metric"
        else Except.ok s
      | none =>
        Except.ok
          { s with
            descriptors := fun n t =>
              if n = nm ∧ t = descriptorKeyTags tags then some mid
              else s.descriptors n t }

/-- `_lookup_descriptor_tr`. -/
def lookupDescriptorTr (s : State) (nm : String) (tags : Tags) : Option Nat :=
  s.descriptors nm (descriptorKeyTags tags)

/-- `_allocate_metric_id`: `next = counter + 1 if present else 1`. -/
def allocateMetricId (s : State) : Nat × State :=
  let next := s.counter.getD 0 + 1
  (next, { s with counter := some next })

/-- Range check for `_pack_meta` (`"<i i B"`). -/
def fitsMetaFmt (step slots : Int) (typ : Nat) : Prop :=
  -I32LIM ≤ step ∧ step < I32LIM ∧ -I32LIM ≤ slots ∧ slots < I32LIM ∧ typ < 256

instance (step slots : Int) (typ : Nat) : Decidable (fitsMetaFmt step slots typ) := by
  unfold fitsMetaFmt; exact inferInstance

/-- `ensure_metric_descriptor`. -/
def ensureMetricDescriptor (db : Tsdb) (s : State) (mid? : Option Nat) (typ : Nat)
    (step? slots? : Option Int) (name? : Option String) (tags? : Option Tags) :
    Except String (Nat × State) :=
  match (match mid? with
         | some m => ensureU32 m
         | none => Except.ok () : Except String Unit) with
  | Except.error e => Except.error e
  | Except.ok _ =>
    let step := orDefault step? db.defaultStep
    let slots := orDefault slots? db.defaultSlots
    let tags := tags?.getD []
    let nm := (name?.getD "")
    if mid? = none ∧ nm = "" then Except.error "metric_id or name must be provided"
    else
      match (if nm ≠ "" then lookupDescriptorTr s nm tags else none) with
      | some eid =>
        -- reuse the bound id; `_load_meta_tr` checks the id range, then only
        -- the type is verified before returning.
        match ensureU32 eid with
        | Except.error e => Except.error e
        | Except.ok _ =>
          match s.meta eid with
          | some m =>
            if m.2.2 ≠ typ then
              Except.error "metric already registered with a different type"
            else
              match ensureMetaInfo s eid (some nm) tags with
              | Except.error e => Except.error e
              | Except.ok s1 => Except.ok (eid, s1)
          | none =>
            match ensureMetaInfo s eid (some nm) tags with
            | Except.error e => Except.error e
            | Except.ok s1 => Except.ok (eid, s1)
      | none =>
        let alloc := (match mid? with
                      | some m => (m, s)
                      | none => allocateMetricId s)
        let mid := alloc.1
        let s0 := alloc.2
        match ensureU32 mid with
        | Except.error e => Except.error e
        | Except.ok _ =>
          if fitsMetaFmt step slots typ then
            match s0.meta mid with
            | some (cs, csl, cty) =>
              if cs ≠ step ∨ csl ≠ slots ∨ cty ≠ typ then
                Except.error "metric already registered with different metadata"
              else
                match ensureMetaInfo s0 mid (if nm = "" then none else some nm) tags with
                | Except.error e => Except.error e
                | Except.ok s2 =>
                  match ensureDescriptorTr s2 mid (if nm = "" then none else some nm) tags with
                  | Except.error e => Except.error e
                  | Except.ok s3 => Except.ok (mid, s3)
            | none =>
              let s1 :=
                { s0 with meta := fun m => if m = mid then some (step, slots, typ) else s0.meta m }
              match ensureMetaInfo s1 mid (if nm = "" then none else some nm) tags with
              | Except.error e => Except.error e
              | Except.ok s2 =>
                match ensureDescriptorTr s2 mid (if nm = "" then none else some nm) tags with
                | Except.error e => Except.error e
                | Except.ok s3 => Except.ok (mid, s3)
          else Except.error "struct.error: meta fields out of range"

/-- `ensure_metric` (registration by explicit id). -/
def ensureMetric (db : Tsdb) (s : State) (mid : Nat) (typ : Nat)
    (step? slots? : Option Int) (name? : Option String) (tags? : Option Tags) :
    Except String State :=
  match ensureU32 mid with
  | Except.error e => Except.error e
  | Except.ok _ =>
    let step := orDefault step? db.defaultStep
    let slots := orDefault slots? db.defaultSlots
    if step ≤ 0 ∨ slots ≤ 0 then Except.error "step and slots must be positive"
    else if fitsMetaFmt step slots typ then
      let checked : Except String State :=
        match s.meta mid with
        | some (cs, csl, cty) =>
          if cs ≠ step ∨ csl ≠ slots ∨ cty ≠ typ then
            Except.error "metric already registered with different metadata"
          else Except.ok s
        | none =>
          Except.ok
            { s with meta := fun m => if m = mid then some (step, slots, typ) else s.meta m }
      match checked with
      | Except.error e => Except.error e
      | Except.ok s1 =>
        match ensureMetaInfo s1 mid name? (tags?.getD []) with
        | Except.error e => Except.error e
        | Except.ok s2 => ensureDescriptorTr s2 mid name? (tags?.getD [])
    else Except.error "struct.error: meta fields out of range"

/-- `write_gauge`: ensure the descriptor with `typ=0`, then `_write_value`. -/
def writeGauge (db : Tsdb) (s : State) (mid? : Option Nat) (ts : Int) (v : ℚ)
    (name? : Option String) (tags? : Option Tags) (step? slots? : Option Int) :
    Except String (Nat × State) :=
  match ensureMetricDescriptor db s mid? 0 step? slots? name? tags? with
  | Except.error e => Except.error e
  | Except.ok (mid, s1) =>
    match writeValue s1 mid ts v with
    | Except.error e => Except.error e
    | Except.ok s2 => Except.ok (mid, s2)

/-- `write_counter`: ensure the descriptor with `typ=1`, then write the raw
value; its transaction body (load meta, `_slot_for`, `window = ts // step`,
pack, set) coincides with `_write_value`. -/
def writeCounter (db : Tsdb) (s : State) (mid? : Option Nat) (ts : Int) (rawValue : ℚ)
    (name? : Option String) (tags? : Option Tags) (step? slots? : Option Int) :
    Except String (Nat × State) :=
  match ensureMetricDescriptor db s mid? 1 step? slots? name? tags? with
  | Except.error e => Except.error e
  | Except.ok (mid, s1) =>
    match writeValue s1 mid ts rawValue with
    | Except.error e => Except.error e
    | Except.ok s2 => Except.ok (mid, s2)

/-- `delete_metric`: clear all slots, meta, meta-info and (when a name is
stored) the descriptor binding; a missing metric is a no-op. -/
def deleteMetric (s : State) (mid : Nat) : Except String State :=
  match ensureU32 mid with
  | Except.error e => Except.error e
  | Except.ok _ =>
    let info := s.metaInfo mid
    let nm := (info.map MetaInfo.name).getD ""
    let tags := (info.map MetaInfo.tags).getD []
    match s.meta mid with
    | none => Except.ok s
    | some _ =>
      Except.ok
        { s with
          values := fun m j => if m = mid then none else s.values m j
          meta := fun m => if m = mid then none else s.meta m
          metaInfo := fun m => if m = mid then none else s.metaInfo m
          descriptors := fun n t =>
            if nm ≠ "" ∧ n = nm ∧ t = descriptorKeyTags tags then none
            else s.descriptors n t }

/-- The replay loop of `rewrite_metric_retention`: write each snapshot row
back with `_write_value`; an exception stops the loop with the state
committed so far. -/
def replayRows (s : State) (mid : Nat) : List Sample → Option String × State
  | [] => (none, s)
  | (ts, v, _) :: rest =>
    match writeValue s mid ts v with
    | Except.error e => (some e, s)
    | Except.ok s1 => replayRows s1 mid rest

/-- `rewrite_metric_retention`.  This operation spans several transactions,
so the result carries the state as committed at the point of any error. -/
def rewriteMetricRetention (db : Tsdb) (s : State) (mid : Nat) (step slots : Int) :
    Option String × State :=
  if step ≤ 0 ∨ slots ≤ 0 then (some "step and slots must be positive", s)
  else
    match ensureU32 mid with
    | Except.error e => (some e, s)
    | Except.ok _ =>
      match s.meta mid with
      | none => (some "metric not found", s)
      | some (_oldStep, _oldSlots, typ) =>
        if typ ≠ 0 then (some "retention rewrite only supported for gauge metrics", s)
        else
          let info := s.metaInfo mid
          let name? : Option String := info.map MetaInfo.name
          let tags : Tags := (info.map MetaInfo.tags).getD []
          match readRange s mid 0 (2 ^ 63 - 1) with
          | Except.error e => (some e, s)
          | Except.ok rows =>
            match deleteMetric s mid with
            | Except.error e => (some e, s)
            | Except.ok s1 =>
              match ensureMetricDescriptor db s1 (some mid) typ (some step) (some slots)
                  name? (some tags) with
              | Except.error e => (some e, s1)
              | Except.ok (_, s2) => replayRows s2 mid rows

/-- A sequence of `_write_value` calls against one metric. -/
def writeMany (s : State) (mid : Nat) : List (Int × ℚ) → Except String State
  | [] => Except.ok s
  | (ts, v) :: rest =>
    match writeValue s mid ts v with
    | Except.error e => Except.error e
    | Except.ok s1 => writeMany s1 mid rest

/-!
## Query-engine functions (`query_engine.py`)

Arrow `f64` columns with NULLs become `List (Option ℚ)`; scalar NULLable
arguments become `Option` values.  The window functions receive their
`periods`/`window` argument already parsed to an integer and apply the
source's `max(1, ·)` floor themselves.
-/

/-- The per-element body of the `bucket_rate` UDF (`rate_value`). -/
def bucket_rate (curr prev : Option ℚ) (bucket : Option Int) : Option ℚ :=
  match curr, prev, bucket with
  | some c, some p, some b =>
    if b ≤ 0 then none
    else
      let delta := c - p
      if delta < 0 then none else some (delta / (b : ℚ))
  | _, _, _ => none

/-- `DiffWindow.evaluate_all`: `value[i] - value[i - periods]`, NULL for
`i < periods` or a NULL endpoint; `periods` is floored at 1. -/
def diffWindowEval (series : List (Option ℚ)) (periodsArg : Int) : List (Option ℚ) :=
  let periods := (max 1 periodsArg).toNat
  series.enum.map (fun iv =>
    if iv.1 < periods then none
    else
      match iv.2 with
      | none => none
      | some c =>
        match series.get? (iv.1 - periods) with
        | some (some p) => some (c - p)
        | _ => none)

/-- `PeriodDiffWindow.evaluate_all`, written out separately in the source
with the same body as `DiffWindow.evaluate_all`. -/
def periodDiffWindowEval (series : List (Option ℚ)) (periodsArg : Int) : List (Option ℚ) :=
  let periods := (max 1 periodsArg).toNat
  series.enum.map (fun iv =>
    if iv.1 < periods then none
    else
      match iv.2 with
      | none => none
      | some c =>
        match series.get? (iv.1 - periods) with
        | some (some p) => some (c - p)
        | _ => none)

/-- Running sum of the non-NULL values of a window. -/
def sumOf (dq : List (Option ℚ)) : ℚ := (dq.filterMap id).sum

/-- Running count of the non-NULL values of a window. -/
def countOf (dq : List (Option ℚ)) : Nat := (dq.filterMap id).length

/-- The loop of `RollingMeanWindow.evaluate_all`: push the value, pop the
front once the deque exceeds the window, emit NULL when no non-NULL value
is in the deque and the running mean otherwise. -/
def rollingMeanGo (window : Nat) (dq : List (Option ℚ)) (rsum : ℚ) (rcount : Nat) :
    List (Option ℚ) → List (Option ℚ)
  | [] => []
  | v :: rest =>
    let dq1 := dq ++ [v]
    let rsum1 : ℚ := match v with | some x => rsum + x | none => rsum
    let rcount1 : Nat := match v with | some _ => rcount + 1 | none => rcount
    if window < dq1.length then
      let old := dq1.headI
      let dq2 := dq1.tail
      let rsum2 : ℚ := match old with | some x => rsum1 - x | none => rsum1
      let rcount2 : Nat := match old with | some _ => rcount1 - 1 | none => rcount1
      (if rcount2 = 0 then none else some (rsum2 / (rcount2 : ℚ))) ::
        rollingMeanGo window dq2 rsum2 rcount2 rest
    else
      (if rcount1 = 0 then none else some (rsum1 / (rcount1 : ℚ))) ::
        rollingMeanGo window dq1 rsum1 rcount1 rest

/-- `RollingMeanWindow.evaluate_all` with the `max(1, window)` coercion. -/
def rollingMeanWindowEval (series : List (Option ℚ)) (windowArg : Int) :
    List (Option ℚ) :=
  rollingMeanGo (max 1 windowArg).toNat [] 0 0 series

/-- The last `n` elements of `l`: the trailing window of the specification. -/
def lastN (n : Nat) (l : List (Option ℚ)) : List (Option ℚ) := l.drop (l.length - n)

/-- Modelled from the spec: the arithmetic mean of the non-NULL values of a
window, NULL when there are none (`rolling_mean` row semantics). -/
def meanOpt (win : List (Option ℚ)) : Option ℚ :=
  let vals := win.filterMap id
  if vals.length = 0 then none else some (vals.sum / (vals.length : ℚ))

/-!
## Concrete stores used by witnesses and counterexamples
-/

/-- A store holding a single bare gauge metric `7` with `step=1, slots=3`. -/
def ringState3 : State :=
  { emptyState with meta := fun m => if m = 7 then some (1, 3, 0) else none }

/-- A store holding gauge metric `5` with `step=2, slots=10` and an empty
meta-info record (as `ensure_metric` leaves behind). -/
def metaState5 : State :=
  { emptyState with
    meta := fun m => if m = 5 then some (2, 10, 0) else none
    metaInfo := fun m => if m = 5 then some ⟨"", []⟩ else none }

/-- A store holding counter metric `9` with `step=1, slots=4`. -/
def counterState9 : State :=
  { emptyState with
    meta := fun m => if m = 9 then some (1, 4, 1) else none
    metaInfo := fun m => if m = 9 then some ⟨"", []⟩ else none }

/-- A store holding counter metric `11` with `step=5, slots=6`, one stored
sample, and a meta-info record. -/
def rewriteState11 : State :=
  { emptyState with
    meta := fun m => if m = 11 then some (5, 6, 1) else none
    metaInfo := fun m => if m = 11 then some ⟨"ctr", [("env", "qa")]⟩ else none
    descriptors := fun n t =>
      if n = "ctr" ∧ t = [("env", "qa")] then some 11 else none }

/-- A store holding gauge metric `12` with `step=1, slots=4` and two samples
at windows 2 and 3. -/
def rewriteGaugeState12 : State :=
  { emptyState with
    meta := fun m => if m = 12 then some (1, 4, 0) else none
    metaInfo := fun m => if m = 12 then some ⟨"", []⟩ else none
    values := fun m j =>
      if m = 12 ∧ j = 2 then some ⟨2, 20, 1⟩
      else if m = 12 ∧ j = 3 then some ⟨3, 30, 1⟩
      else none }

/-- The first-call expression of the descriptor-allocation scenario
(`ensure_descriptor(None, type=0, name="foo", tags={env:qa}, step=2, slots=10)`). -/
def allocCall1 : Except String (Nat × State) :=
  ensureMetricDescriptor initTsdb emptyState none 0 (some 2) (some 10)
    (some "foo") (some [("env", "qa")])

/-- The id of an `ensure_metric_descriptor` result, `none` on error. -/
def resultId (r : Except String (Nat × State)) : Option Nat :=
  match r with
  | Except.ok (i, _) => some i
  | Except.error _ => none

/-- The state of an `ensure_metric_descriptor` result, with a fallback. -/
def resultState (r : Except String (Nat × State)) (fallback : State) : State :=
  match r with
  | Except.ok (_, s) => s
  | Except.error _ => fallback

/-- The store after the first descriptor allocation of the scenario. -/
def allocState1 : State := resultState allocCall1 emptyState

/-- The slot update performed by one `_write_value` on a metric's ring. -/
def ringWrite (step slots : Int) (ring : Nat → Option ValueRecord) (ts : Int) (v : ℚ) :
    Nat → Option ValueRecord :=
  fun j =>
    if j = (Int.fmod (Int.fdiv ts step) slots).toNat
    then some ⟨(Int.fdiv ts step).toNat, v, FLAG_VALID⟩
    else ring j

/-- Replay of a row list on a ring, slot update by slot update. -/
def ringReplay (step slots : Int) (ring : Nat → Option ValueRecord) :
    List Sample → (Nat → Option ValueRecord)
  | [] => ring
  | (ts, v, _) :: rest => ringReplay step slots (ringWrite step slots ring ts v) rest

/-- The ring after a sequence of `(ts, value)` writes. -/
def ringWriteMany (step slots : Int) (ring : Nat → Option ValueRecord) :
    List (Int × ℚ) → (Nat → Option ValueRecord)
  | [] => ring
  | (ts, v) :: rest => ringWriteMany step slots (ringWrite step slots ring ts v) rest

/-!
## Theorems
-/

/-- C10: when `end_ts < start_ts`, `read_range` returns the empty list
without raising, before even loading the metric's meta record. -/
theorem read_range_inverted_empty (s : State) (mid : Nat) (startTs endTs : Int)
    (h : endTs < startTs) : readRange s mid startTs endTs = Except.ok [] := by
  unfold readRange
  rw [if_pos h]

/-- Witness for C10 at a concrete store and window. -/
theorem read_range_inverted_empty_witness :
    (3 : Int) < 5 ∧ readRange ringState3 7 5 3 = Except.ok [] :=
  ⟨by decide, read_range_inverted_empty ringState3 7 5 3 (by decide)⟩

/-- C5: `bucket_rate(curr, prev, b)` is NULL exactly when an input is NULL,
`b ≤ 0`, or `curr < prev`; otherwise it equals `(curr - prev) / b`. -/
theorem bucket_rate_spec (curr prev : Option ℚ) (bucket : Option Int) :
    (bucket_rate curr prev bucket = none ↔
      curr = none ∨ prev = none ∨ bucket = none ∨
        (∃ b, bucket = some b ∧ b ≤ 0) ∨
        (∃ c p, curr = some c ∧ prev = some p ∧ c < p)) ∧
    (∀ c p b, curr = some c → prev = some p → bucket = some b → 0 < b → p ≤ c →
      bucket_rate curr prev bucket = some ((c - p) / (b : ℚ))) := by
  constructor
  · constructor
    · intro h
      rcases curr with _ | c
      · exact Or.inl rfl
      rcases prev with _ | p
      · exact Or.inr (Or.inl rfl)
      rcases bucket with _ | b
      · exact Or.inr (Or.inr (Or.inl rfl))
      simp only [bucket_rate] at h
      split_ifs at h with hb hd
      · exact Or.inr (Or.inr (Or.inr (Or.inl ⟨b, rfl, hb⟩)))
      · exact Or.inr (Or.inr (Or.inr (Or.inr ⟨c, p, rfl, rfl, by linarith⟩)))
    · rintro (rfl | rfl | rfl | ⟨b2, rfl, hble⟩ | ⟨c2, p2, rfl, rfl, hlt⟩)
      · rfl
      · rcases curr with _ | c <;> rfl
      · rcases curr with _ | c <;> rcases prev with _ | p <;> rfl
      · rcases curr with _ | c
        · rfl
        rcases prev with _ | p
        · rfl
        simp only [bucket_rate]
        rw [if_pos hble]
      · rcases bucket with _ | b
        · rfl
        by_cases hb : b ≤ 0
        · simp only [bucket_rate]; rw [if_pos hb]
        · simp only [bucket_rate]; rw [if_neg hb, if_pos (by linarith)]
  · intro c p b hc hp hb hpos hle
    subst hc; subst hp; subst hb
    simp only [bucket_rate]
    rw [if_neg (by omega), if_neg (by linarith)]

/-- Witness for C5: `bucket_rate(5, 3, 2) = 1`. -/
theorem bucket_rate_spec_witness :
    bucket_rate (some 5) (some 3) (some 2) = some (((5 : ℚ) - 3) / ((2 : Int) : ℚ)) :=
  (bucket_rate_spec (some 5) (some 3) (some 2)).2 5 3 2 rfl rfl rfl (by norm_num)
    (by norm_num)

/-- C9: `period_diff` is an exact alias of `diff`: the two window evaluators
produce identical output arrays on every series and periods argument. -/
theorem period_diff_alias (series : List (Option ℚ)) (periodsArg : Int) :
    periodDiffWindowEval series periodsArg = diffWindowEval series periodsArg := rfl

/-- A sample produced by `scanSlot` reconstructs `ts` as a window multiple of
`step` and satisfies the requested bounds. -/
theorem scanSlot_mem_spec {s : State} {mid : Nat} {a b : Int} {typ : Nat} {step : Int}
    {slot : Nat} {x : Sample} (h : scanSlot s mid a b typ step slot = some x) :
    (∃ w : Nat, x.1 = (w : Int) * step) ∧ a ≤ x.1 ∧ x.1 ≤ b := by
  unfold scanSlot at h
  cases hv : s.values mid slot with
  | none => rw [hv] at h; cases h
  | some r =>
    rw [hv] at h
    dsimp only at h
    split_ifs at h with h1 h2
    push_neg at h2
    obtain rfl : ((r.window : Int) * step, r.value, typ) = x := by injection h
    exact ⟨⟨r.window, rfl⟩, h2.1, h2.2⟩

/-- Samples returned by a successful `read_range` lie within the requested
bounds and reconstruct `ts` as `window * step`. -/
theorem readRange_ok_mem {s : State} {mid : Nat} {a b : Int} {l : List Sample}
    {st sl : Int} {ty : Nat} (hm : s.meta mid = some (st, sl, ty))
    (h : readRange s mid a b = Except.ok l) :
    ∀ x ∈ l, (∃ w : Nat, x.1 = (w : Int) * st) ∧ a ≤ x.1 ∧ x.1 ≤ b := by
  intro x hx
  unfold readRange at h
  split_ifs at h with hba
  · obtain rfl : ([] : List Sample) = l := by injection h
    cases hx
  · cases he : ensureU32 mid with
    | error e => rw [he] at h; cases h
    | ok u =>
      rw [he] at h
      dsimp only at h
      rw [hm] at h
      dsimp only at h
      split_ifs at h with hstep hw hc
      · obtain rfl : ([] : List Sample) = l := by injection h
        cases hx
      · obtain rfl : ([] : List Sample) = l := by injection h
        cases hx
      · obtain rfl :
            sortSamples (scanSegments s mid
              (segmentsFor (Int.fmod (Int.fdiv a st) sl).toNat
                (min sl (Int.fdiv b st - Int.fdiv a st + 1)).toNat sl.toNat)
              a b ty st) = l := by injection h
        have hx2 : x ∈ scanSegments s mid
            (segmentsFor (Int.fmod (Int.fdiv a st) sl).toNat
              (min sl (Int.fdiv b st - Int.fdiv a st + 1)).toNat sl.toNat)
            a b ty st := by
          have hperm := List.perm_insertionSort tsLe (scanSegments s mid
            (segmentsFor (Int.fmod (Int.fdiv a st) sl).toNat
              (min sl (Int.fdiv b st - Int.fdiv a st + 1)).toNat sl.toNat)
            a b ty st)
          exact (hperm.mem_iff : x ∈ _ ↔ _).mp hx
        simp only [scanSegments, List.mem_flatMap, List.mem_filterMap] at hx2
        obtain ⟨seg, _, slot, _, hslot⟩ := hx2
        exact scanSlot_mem_spec hslot

/-- The row list of a successful `read_range` is sorted by `ts` ascending. -/
theorem readRange_ok_sorted {s : State} {mid : Nat} {a b : Int} {l : List Sample}
    (h : readRange s mid a b = Except.ok l) : l.Sorted tsLe := by
  unfold readRange at h
  split_ifs at h with hba
  · obtain rfl : ([] : List Sample) = l := by injection h
    exact List.sorted_nil
  · cases he : ensureU32 mid with
    | error e => rw [he] at h; cases h
    | ok u =>
      rw [he] at h
      dsimp only at h
      cases hme : s.meta mid with
      | none =>
        rw [hme] at h
        obtain rfl : ([] : List Sample) = l := by injection h
        exact List.sorted_nil
      | some m =>
        obtain ⟨st, sl, ty⟩ := m
        rw [hme] at h
        dsimp only at h
        split_ifs at h with hstep hw hc
        · obtain rfl : ([] : List Sample) = l := by injection h
          exact List.sorted_nil
        · obtain rfl : ([] : List Sample) = l := by injection h
          exact List.sorted_nil
        · obtain rfl :
              sortSamples (scanSegments s mid
                (segmentsFor (Int.fmod (Int.fdiv a st) sl).toNat
                  (min sl (Int.fdiv b st - Int.fdiv a st + 1)).toNat sl.toNat)
                a b ty st) = l := by injection h
          exact List.sorted_insertionSort tsLe _

/-- C3: every sample returned by `read_range` has a `ts` that is a multiple of
the metric's `step` (being reconstructed as `window * step`), lies within
`[start_ts, end_ts]`, and the returned list is sorted by `ts` ascending. -/
theorem read_range_postcondition (s : State) (mid : Nat) (a b : Int)
    (l : List Sample) (st sl : Int) (ty : Nat)
    (hm : s.meta mid = some (st, sl, ty))
    (hr : readRange s mid a b = Except.ok l) :
    (∀ x ∈ l, st ∣ x.1 ∧ a ≤ x.1 ∧ x.1 ≤ b) ∧ l.Sorted tsLe := by
  refine ⟨fun x hx => ?_, readRange_ok_sorted hr⟩
  obtain ⟨⟨w, hw⟩, h1, h2⟩ := readRange_ok_mem hm hr x hx
  exact ⟨⟨w, by rw [hw, mul_comm]⟩, h1, h2⟩

/-- Specialisations of `sumOf`/`countOf` on cons and append. -/
theorem sumOf_cons_none (l : List (Option ℚ)) : sumOf (none :: l) = sumOf l := rfl

/-- `sumOf` over a cons with a value. -/
theorem sumOf_cons_some (x : ℚ) (l : List (Option ℚ)) :
    sumOf (some x :: l) = x + sumOf l := by
  simp [sumOf]

/-- `sumOf` after appending NULL. -/
theorem sumOf_app_none (l : List (Option ℚ)) : sumOf (l ++ [none]) = sumOf l := by
  simp [sumOf, List.filterMap_append]

/-- `sumOf` after appending a value. -/
theorem sumOf_app_some (l : List (Option ℚ)) (x : ℚ) :
    sumOf (l ++ [some x]) = sumOf l + x := by
  simp [sumOf, List.filterMap_append]

/-- `countOf` over a cons with NULL. -/
theorem countOf_cons_none (l : List (Option ℚ)) : countOf (none :: l) = countOf l := rfl

/-- `countOf` over a cons with a value. -/
theorem countOf_cons_some (x : ℚ) (l : List (Option ℚ)) :
    countOf (some x :: l) = countOf l + 1 := by
  simp [countOf]

/-- `countOf` after appending NULL. -/
theorem countOf_app_none (l : List (Option ℚ)) : countOf (l ++ [none]) = countOf l := by
  simp [countOf, List.filterMap_append]

/-- `countOf` after appending a value. -/
theorem countOf_app_some (l : List (Option ℚ)) (x : ℚ) :
    countOf (l ++ [some x]) = countOf l + 1 := by
  simp [countOf, List.filterMap_append]

/-- The trailing window has length `min n l.length`. -/
theorem lastN_length (n : Nat) (l : List (Option ℚ)) :
    (lastN n l).length = min n l.length := by
  simp only [lastN, List.length_drop]; omega

/-- A list shorter than the window is its own trailing window. -/
theorem lastN_of_le (n : Nat) (l : List (Option ℚ)) (h : l.length ≤ n) :
    lastN n l = l := by
  simp only [lastN]
  rw [show l.length - n = 0 by omega, List.drop_zero]

/-- Appending inside a not-yet-full window. -/
theorem lastN_append_small {n : Nat} {l : List (Option ℚ)} (v : Option ℚ)
    (h : l.length + 1 ≤ n) : lastN n (l ++ [v]) = l ++ [v] := by
  apply lastN_of_le
  simp only [List.length_append, List.length_singleton]
  omega

/-- Appending to a full window drops its head. -/
theorem lastN_append_pop {n : Nat} {l : List (Option ℚ)} (v : Option ℚ)
    (hn : 1 ≤ n) (h : n ≤ l.length) :
    lastN n (l ++ [v]) = (lastN n l).tail ++ [v] := by
  simp only [lastN, List.length_append, List.length_singleton, List.tail_drop]
  rw [show l.length + 1 - n = l.length - n + 1 by omega]
  rw [List.drop_append_of_le_length (by omega)]

/-- The loop invariant of `RollingMeanWindow`: starting from the trailing
window of `hist` with matching running sum and count, the loop emits, for
the `i`-th further row, the mean over the trailing window of the extended
history. -/
theorem rollingMeanGo_spec (w : Nat) (hw : 1 ≤ w) :
    ∀ (rest hist : List (Option ℚ)),
      rollingMeanGo w (lastN w hist) (sumOf (lastN w hist)) (countOf (lastN w hist)) rest =
        (List.range rest.length).map
          (fun i => meanOpt (lastN w (hist ++ rest.take (i + 1)))) := by
  intro rest
  induction rest with
  | nil => intro hist; rfl
  | cons v tl ih =>
    intro hist
    rw [rollingMeanGo.eq_def]
    dsimp only
    by_cases hfull : w < (lastN w hist ++ [v]).length
    · -- the deque is full: Python pops the front
      rw [if_pos hfull]
      have hlen' := lastN_length w hist
      have hlenw : (lastN w hist).length = w := by
        simp only [List.length_append, List.length_singleton] at hfull
        omega
      have hhist : w ≤ hist.length := by omega
      obtain ⟨d0, dtl, hdq⟩ : ∃ d0 dtl, lastN w hist = d0 :: dtl := by
        cases hdqc : lastN w hist with
        | nil => rw [hdqc] at hlenw; simp at hlenw; omega
        | cons d0 dtl => exact ⟨d0, dtl, rfl⟩
      have hpop : lastN w (hist ++ [v]) = dtl ++ [v] := by
        rw [lastN_append_pop v hw hhist, hdq, List.tail_cons]
      rw [hdq]
      simp only [List.cons_append, List.headI, List.tail_cons]
      rcases d0 with _ | x <;> rcases v with _ | y <;> dsimp only
      · -- popped NULL, pushed NULL
        rw [show sumOf (none :: dtl) = sumOf (dtl ++ [none]) from by
              rw [sumOf_cons_none, sumOf_app_none]]
        rw [show countOf (none :: dtl) = countOf (dtl ++ [none]) from by
              rw [countOf_cons_none, countOf_app_none]]
        rw [← hpop, ih (hist ++ [none])]
        simp only [List.length_cons]
        rw [List.range_succ_eq_map, List.map_cons, List.map_map]
        congr 1
        apply List.map_congr_left
        intro i _
        simp only [Function.comp_apply, List.take_succ_cons]
        rw [List.append_assoc]
        rfl
      · -- popped NULL, pushed a value
        rw [show sumOf (none :: dtl) + y = sumOf (dtl ++ [some y]) from by
              rw [sumOf_cons_none, sumOf_app_some]]
        rw [show countOf (none :: dtl) + 1 = countOf (dtl ++ [some y]) from by
              rw [countOf_cons_none, countOf_app_some]]
        rw [← hpop, ih (hist ++ [some y])]
        simp only [List.length_cons]
        rw [List.range_succ_eq_map, List.map_cons, List.map_map]
        congr 1
        apply List.map_congr_left
        intro i _
        simp only [Function.comp_apply, List.take_succ_cons]
        rw [List.append_assoc]
        rfl
      · -- popped a value, pushed NULL
        rw [show sumOf (some x :: dtl) - x = sumOf (dtl ++ [none]) from by
              rw [sumOf_cons_some, sumOf_app_none]; ring]
        rw [show countOf (some x :: dtl) - 1 = countOf (dtl ++ [none]) from by
              rw [countOf_cons_some, countOf_app_none]; omega]
        rw [← hpop, ih (hist ++ [none])]
        simp only [List.length_cons]
        rw [List.range_succ_eq_map, List.map_cons, List.map_map]
        congr 1
        apply List.map_congr_left
        intro i _
        simp only [Function.comp_apply, List.take_succ_cons]
        rw [List.append_assoc]
        rfl
      · -- popped a value, pushed a value
        rw [show sumOf (some x :: dtl) + y - x = sumOf (dtl ++ [some y]) from by
              rw [sumOf_cons_some, sumOf_app_some]; ring]
        rw [show countOf (some x :: dtl) + 1 - 1 = countOf (dtl ++ [some y]) from by
              rw [countOf_cons_some, countOf_app_some]; omega]
        rw [← hpop, ih (hist ++ [some y])]
        simp only [List.length_cons]
        rw [List.range_succ_eq_map, List.map_cons, List.map_map]
        congr 1
        apply List.map_congr_left
        intro i _
        simp only [Function.comp_apply, List.take_succ_cons]
        rw [List.append_assoc]
        rfl
    · -- the deque is not yet full
      rw [if_neg hfull]
      have hlen' := lastN_length w hist
      have hsmall : hist.length + 1 ≤ w := by
        simp only [List.length_append, List.length_singleton] at hfull
        omega
      have hid : lastN w hist = hist := lastN_of_le w hist (by omega)
      have hgrow : lastN w (hist ++ [v]) = lastN w hist ++ [v] := by
        rw [hid]; exact lastN_append_small v hsmall
      rcases v with _ | y <;> dsimp only
      · rw [show sumOf (lastN w hist) = sumOf (lastN w hist ++ [none]) from
              (sumOf_app_none _).symm]
        rw [show countOf (lastN w hist) = countOf (lastN w hist ++ [none]) from
              (countOf_app_none _).symm]
        rw [← hgrow, ih (hist ++ [none])]
        simp only [List.length_cons]
        rw [List.range_succ_eq_map, List.map_cons, List.map_map]
        congr 1
        apply List.map_congr_left
        intro i _
        simp only [Function.comp_apply, List.take_succ_cons]
        rw [List.append_assoc]
        rfl
      · rw [show sumOf (lastN w hist) + y = sumOf (lastN w hist ++ [some y]) from
              (sumOf_app_some _ y).symm]
        rw [show countOf (lastN w hist) + 1 = countOf (lastN w hist ++ [some y]) from
              (countOf_app_some _ y).symm]
        rw [← hgrow, ih (hist ++ [some y])]
        simp only [List.length_cons]
        rw [List.range_succ_eq_map, List.map_cons, List.map_map]
        congr 1
        apply List.map_congr_left
        intro i _
        simp only [Function.comp_apply, List.take_succ_cons]
        rw [List.append_assoc]
        rfl

/-- C8: `rolling_mean` emits, at every row, the mean over the trailing window
of the last `max(1, window)` rows, ignoring NULLs; a window of only NULLs
gives NULL (`meanOpt` is NULL exactly when every window value is NULL). -/
theorem rolling_mean_spec (series : List (Option ℚ)) (windowArg : Int) :
    rollingMeanWindowEval series windowArg =
      (List.range series.length).map
        (fun i => meanOpt (lastN (max 1 windowArg).toNat (series.take (i + 1)))) ∧
    (∀ win : List (Option ℚ), meanOpt win = none ↔ ∀ x ∈ win, x = none) := by
  constructor
  · have hw : 1 ≤ (max 1 windowArg).toNat := by omega
    have h := rollingMeanGo_spec (max 1 windowArg).toNat hw series []
    have h0 : lastN (max 1 windowArg).toNat ([] : List (Option ℚ)) = [] := by
      simp [lastN]
    rw [h0] at h
    rw [show sumOf [] = 0 from rfl, show countOf [] = 0 from rfl] at h
    simp only [List.nil_append] at h
    unfold rollingMeanWindowEval
    exact h
  · intro win
    rw [meanOpt]
    constructor
    · intro h
      split_ifs at h with hlen
      intro x hx
      have h2 : win.filterMap id = [] := List.length_eq_zero.mp hlen
      have h3 := List.filterMap_eq_nil_iff.mp h2 x hx
      simpa using h3
    · intro h
      have hlen : (win.filterMap id).length = 0 := by
        rw [List.length_eq_zero, List.filterMap_eq_nil_iff]
        intro a ha
        simpa using h a ha
      rw [if_pos hlen]

/-- Witness for C8 on a concrete mixed series with window 2. -/
theorem rolling_mean_spec_witness :
    rollingMeanWindowEval [some 1, none, some 3, some 5, none] 2 =
      (List.range ([some 1, none, some 3, some 5, none] : List (Option ℚ)).length).map
        (fun i => meanOpt (lastN (max 1 (2 : Int)).toNat
          ([some 1, none, some 3, some 5, none].take (i + 1)))) ∧
    (meanOpt [none, none] = none ↔ ∀ x ∈ ([none, none] : List (Option ℚ)), x = none) :=
  ⟨(rolling_mean_spec [some 1, none, some 3, some 5, none] 2).1,
    (rolling_mean_spec [] 0).2 [none, none]⟩

/-- Witness for C3 on a concrete gauge store with two samples. -/
theorem read_range_postcondition_witness :
    rewriteGaugeState12.meta 12 = some (1, 4, 0) ∧
    readRange rewriteGaugeState12 12 0 10 = Except.ok [(2, 20, 0), (3, 30, 0)] ∧
    ((∀ x ∈ ([(2, 20, 0), (3, 30, 0)] : List Sample),
        (1 : Int) ∣ x.1 ∧ 0 ≤ x.1 ∧ x.1 ≤ 10) ∧
      List.Sorted tsLe [(2, 20, 0), (3, 30, 0)]) :=
  ⟨rfl, by rfl,
    read_range_postcondition rewriteGaugeState12 12 0 10 [(2, 20, 0), (3, 30, 0)] 1 4 0
      rfl (by rfl)⟩


/-- `_ensure_u32` succeeds on ids within the uint32 range. -/
theorem ensureU32_ok {mid : Nat} (h : mid ≤ U32MAX) : ensureU32 mid = Except.ok () := by
  unfold ensureU32
  rw [if_neg (by omega)]

/-- `x or default` keeps a non-zero explicit value. -/
theorem orDefault_some {v d : Int} (h : v ≠ 0) : orDefault (some v) d = v := by
  unfold orDefault
  dsimp only
  rw [if_neg h]

/-- Characterisation of a successful `_write_value`: the slot
`(ts // step) % slots` is overwritten with `(ts // step, value, VALID)`. -/
theorem writeValue_ok {s : State} {mid : Nat} {st sl : Int} {ty : Nat} (ts : Int) (v : ℚ)
    (hmid : mid ≤ U32MAX) (hm : s.meta mid = some (st, sl, ty)) (hst : 0 < st)
    (hw0 : 0 ≤ Int.fdiv ts st) (hwle : Int.fdiv ts st ≤ (U32MAX : Int))
    (hsl : 0 < sl) (hslle : sl ≤ (U32MAX : Int) + 1) :
    writeValue s mid ts v =
      Except.ok
        { s with
          values := fun m j =>
            if m = mid ∧ j = (Int.fmod (Int.fdiv ts st) sl).toNat
            then some ⟨(Int.fdiv ts st).toNat, v, FLAG_VALID⟩
            else s.values m j } := by
  unfold writeValue
  rw [ensureU32_ok hmid]
  dsimp only
  rw [hm]
  dsimp only
  have hs1 : ¬(Int.fmod (Int.fdiv ts st) sl < 0 ∨ (U32MAX : Int) < Int.fmod (Int.fdiv ts st) sl) := by
    push_neg
    refine ⟨Int.fmod_nonneg' _ hsl, ?_⟩
    have := Int.fmod_lt_of_pos (Int.fdiv ts st) hsl
    omega
  have hs2 : ¬(Int.fdiv ts st < 0 ∨ (U32MAX : Int) < Int.fdiv ts st) := by
    push_neg
    exact ⟨hw0, hwle⟩
  rw [if_neg (by omega), if_neg hs1, if_neg hs2]

/-- `_ensure_meta_info` with no name and no tags always succeeds and touches
only the meta-info map. -/
theorem ensureMetaInfo_none_nil (s : State) (mid : Nat) :
    ∃ s1, ensureMetaInfo s mid none [] = Except.ok s1 ∧
      s1.meta = s.meta ∧ s1.values = s.values ∧ s1.descriptors = s.descriptors ∧
      s1.counter = s.counter := by
  unfold ensureMetaInfo
  rw [show computeMetaInfo (s.metaInfo mid) none [] =
      Except.ok ((s.metaInfo mid).getD ⟨"", []⟩, (s.metaInfo mid).isNone) from rfl]
  dsimp only
  split_ifs
  · exact ⟨_, rfl, rfl, rfl, rfl, rfl⟩
  · exact ⟨s, rfl, rfl, rfl, rfl, rfl⟩

/-- `ensure_metric_descriptor` called with an explicit id, no name, and the
already-registered `(step, slots, type)` succeeds, returning the same id and
leaving meta, values, descriptors and the id counter unchanged. -/
theorem ensure_by_id_matching (db : Tsdb) (s : State) (mid : Nat) (st sl : Int) (ty : Nat)
    (hmid : mid ≤ U32MAX) (hm : s.meta mid = some (st, sl, ty))
    (hst : st ≠ 0) (hsl : sl ≠ 0) (hfits : fitsMetaFmt st sl ty) :
    ∃ s1, ensureMetricDescriptor db s (some mid) ty (some st) (some sl) none none =
        Except.ok (mid, s1) ∧
      s1.meta = s.meta ∧ s1.values = s.values ∧ s1.descriptors = s.descriptors ∧
      s1.counter = s.counter := by
  unfold ensureMetricDescriptor
  dsimp only
  rw [ensureU32_ok hmid]
  dsimp only
  rw [orDefault_some hst, orDefault_some hsl]
  rw [if_neg (by simp)]
  simp only [Option.getD_none]
  have hne : ¬(("" : String) ≠ "") := by simp
  rw [if_neg hne]
  dsimp only
  rw [if_pos hfits, hm]
  dsimp only
  have hcond : ¬(st ≠ st ∨ sl ≠ sl ∨ ty ≠ ty) := by simp
  rw [if_neg hcond]
  simp only [if_true]
  obtain ⟨s1, hs1, hf1, hf2, hf3, hf4⟩ := ensureMetaInfo_none_nil s mid
  rw [hs1]
  dsimp only
  exact ⟨s1, rfl, hf1, hf2, hf3, hf4⟩

/-- `write_counter` against an existing `step=1, slots=4` counter stores the
raw value record at slot `T % 4`, touching nothing else. -/
theorem writeCounter_by_id (db : Tsdb) (s : State) (mid T : Nat) (v : ℚ)
    (hmid : mid ≤ U32MAX) (hT : T ≤ U32MAX) (hm : s.meta mid = some (1, 4, 1)) :
    ∃ s2, writeCounter db s (some mid) (T : Int) v none none (some 1) (some 4) =
        Except.ok (mid, s2) ∧
      s2.meta = s.meta ∧
      s2.values mid (T % 4) = some ⟨T, v, FLAG_VALID⟩ ∧
      (∀ j, j ≠ T % 4 → s2.values mid j = s.values mid j) := by
  have hfits : fitsMetaFmt 1 4 1 := by
    unfold fitsMetaFmt I32LIM
    norm_num
  obtain ⟨s1, he1, hm1, hv1, hd1, hc1⟩ :=
    ensure_by_id_matching db s mid 1 4 1 hmid hm (by norm_num) (by norm_num) hfits
  have hm1e : s1.meta mid = some (1, 4, 1) := by rw [hm1]; exact hm
  have e1 : (Int.fmod (Int.fdiv (T : Int) 1) 4).toNat = T % 4 := by
    rw [Int.fdiv_one, show ((4 : Int)) = ((4 : Nat) : Int) from rfl, ← Int.ofNat_fmod]
    exact Int.toNat_ofNat _
  have e2 : (Int.fdiv (T : Int) 1).toNat = T := by
    rw [Int.fdiv_one]
    exact Int.toNat_ofNat _
  have hwv := writeValue_ok (T : Int) v hmid hm1e (by norm_num)
    (by rw [Int.fdiv_one]; exact Int.ofNat_nonneg T)
    (by rw [Int.fdiv_one]; exact_mod_cast hT)
    (by norm_num)
    (by unfold U32MAX; norm_num)
  refine ⟨{ s1 with
            values := fun m j =>
              if m = mid ∧ j = (Int.fmod (Int.fdiv (T : Int) 1) 4).toNat
              then some ⟨(Int.fdiv (T : Int) 1).toNat, v, FLAG_VALID⟩
              else s1.values m j }, ?_, ?_, ?_, ?_⟩
  · unfold writeCounter
    rw [he1]
    dsimp only
    rw [hwv]
  · dsimp only
    exact hm1
  · dsimp only
    rw [e1, e2, if_pos ⟨rfl, rfl⟩]
  · intro j hj
    dsimp only
    rw [e1, if_neg (fun hc => hj hc.2)]
    rw [hv1]

/-- A `read_range` over two adjacent windows of a `step=1, slots=4` metric
whose two slots hold the corresponding records. -/
theorem readRange_two_slots (s : State) (mid T : Nat) (ty : Nat) (v1 v2 : ℚ)
    (hmid : mid ≤ U32MAX)
    (hm : s.meta mid = some (1, 4, ty))
    (hv1 : s.values mid (T % 4) = some ⟨T, v1, FLAG_VALID⟩)
    (hv2 : s.values mid ((T + 1) % 4) = some ⟨T + 1, v2, FLAG_VALID⟩) :
    readRange s mid (T : Int) ((T : Int) + 1) =
      Except.ok [((T : Int), v1, ty), ((T : Int) + 1, v2, ty)] := by
  have hsc1 : scanSlot s mid (T : Int) ((T : Int) + 1) ty 1 (T % 4) =
      some ((T : Int), v1, ty) := by
    unfold scanSlot
    rw [hv1]
    dsimp only
    rw [if_neg (by decide), if_neg (by rw [mul_one]; omega), mul_one]
  have hsc2 : scanSlot s mid (T : Int) ((T : Int) + 1) ty 1 ((T + 1) % 4) =
      some ((T : Int) + 1, v2, ty) := by
    unfold scanSlot
    rw [hv2]
    dsimp only
    rw [if_neg (by decide), mul_one]
    push_cast
    rw [if_neg (by omega)]
  have hsort : sortSamples [((T : Int), v1, ty), ((T : Int) + 1, v2, ty)] =
      [((T : Int), v1, ty), ((T : Int) + 1, v2, ty)] := by
    unfold sortSamples
    simp only [List.insertionSort, List.orderedInsert]
    rw [if_pos (show tsLe ((T : Int), v1, ty) ((T : Int) + 1, v2, ty) from by
      unfold tsLe; omega)]
  unfold readRange
  rw [if_neg (by omega)]
  rw [ensureU32_ok hmid]
  dsimp only
  rw [hm]
  dsimp only
  rw [if_neg (by norm_num)]
  rw [Int.fdiv_one, Int.fdiv_one]
  rw [if_neg (by omega)]
  rw [show min (4 : Int) ((T : Int) + 1 - (T : Int) + 1) = 2 from by norm_num]
  rw [if_neg (by norm_num)]
  rw [show ((2 : Int)).toNat = 2 from rfl, show ((4 : Int)).toNat = 4 from rfl]
  rw [show (Int.fmod (T : Int) 4).toNat = T % 4 from by
    rw [show ((4 : Int)) = ((4 : Nat) : Int) from rfl, ← Int.ofNat_fmod]
    exact Int.toNat_ofNat _]
  have h4 : T % 4 < 4 := Nat.mod_lt _ (by norm_num)
  by_cases hr3 : T % 4 = 3
  · have h10 : (T + 1) % 4 = 0 := by omega
    rw [hr3]
    rw [show segmentsFor 3 2 4 = [(3, 3), (0, 0)] from rfl]
    unfold scanSegments
    simp only [List.flatMap_cons, List.flatMap_nil, List.append_nil]
    rw [show List.range' 3 1 = [3] from rfl, show List.range' 0 1 = [0] from rfl]
    rw [← hr3, ← h10]
    simp only [List.filterMap_cons, List.filterMap_nil, hsc1, hsc2]
    rw [show ([((T : Int), v1, ty)] ++ [((T : Int) + 1, v2, ty)] : List Sample) =
      [((T : Int), v1, ty), ((T : Int) + 1, v2, ty)] from rfl]
    rw [hsort]
  · have hle2 : T % 4 + 2 ≤ 4 := by omega
    have h11 : (T + 1) % 4 = T % 4 + 1 := by omega
    rw [show segmentsFor (T % 4) 2 4 = [(T % 4, T % 4 + 1)] from by
      unfold segmentsFor
      rw [if_neg (by omega), if_pos hle2]
      norm_num]
    unfold scanSegments
    simp only [List.flatMap_cons, List.flatMap_nil, List.append_nil]
    rw [show T % 4 + 1 + 1 - T % 4 = 2 from by omega]
    rw [show List.range' (T % 4) 2 = [T % 4, T % 4 + 1] from rfl]
    rw [← h11]
    simp only [List.filterMap_cons, List.filterMap_nil, hsc1, hsc2]
    rw [hsort]

/-- C6: counter raw values are stored verbatim and returned unchanged by
range reads: on a `slots=4` counter, writes `(T, v1)` and `(T+1, v2)` --
including a reset `v2 < v1` -- followed by `read_range(T, T+1)` return
exactly `[(T, v1), (T+1, v2)]` for every externally provided raw value. -/
theorem counter_raw_verbatim (db : Tsdb) (s : State) (mid T : Nat) (v1 v2 : ℚ)
    (hmid : mid ≤ U32MAX) (hT : T + 1 ≤ U32MAX)
    (hm : s.meta mid = some (1, 4, 1)) :
    ((writeCounter db s (some mid) (T : Int) v1 none none (some 1) (some 4)).bind
      (fun r => (writeCounter db r.2 (some mid) ((T : Int) + 1) v2 none none
          (some 1) (some 4)).bind
        (fun r2 => readRange r2.2 mid (T : Int) ((T : Int) + 1)))) =
      Except.ok [((T : Int), v1, 1), ((T : Int) + 1, v2, 1)] := by
  obtain ⟨s2, hwc1, hm2, hv2a, hv2b⟩ :=
    writeCounter_by_id db s mid T v1 hmid (by omega) hm
  have hm2e : s2.meta mid = some (1, 4, 1) := by rw [hm2]; exact hm
  obtain ⟨s4, hwc2, hm4, hv4a, hv4b⟩ :=
    writeCounter_by_id db s2 mid (T + 1) v2 hmid hT hm2e
  have hm4e : s4.meta mid = some (1, 4, 1) := by rw [hm4]; exact hm2e
  have hcast : (((T + 1 : Nat)) : Int) = (T : Int) + 1 := by push_cast; ring
  rw [hcast] at hwc2
  rw [hwc1]
  dsimp only [Except.bind]
  rw [hwc2]
  dsimp only [Except.bind]
  have hne : (T + 1) % 4 ≠ T % 4 := by omega
  exact readRange_two_slots s4 mid T 1 v1 v2 hmid hm4e
    (by rw [hv4b (T % 4) (by omega)]; exact hv2a)
    hv4a

/-- Witness for C6: the literal scenario-B store (`slots=4`, writes
`(50, 100)` and `(51, 90)`, a counter reset) reads back unchanged. -/
theorem counter_raw_verbatim_witness :
    counterState9.meta 9 = some (1, 4, 1) ∧
    ((writeCounter initTsdb counterState9 (some 9) ((50 : Nat) : Int) 100 none none
        (some 1) (some 4)).bind
      (fun r => (writeCounter initTsdb r.2 (some 9) (((50 : Nat) : Int) + 1) 90 none none
          (some 1) (some 4)).bind
        (fun r2 => readRange r2.2 9 ((50 : Nat) : Int) (((50 : Nat) : Int) + 1)))) =
      Except.ok [(((50 : Nat) : Int), 100, 1), (((50 : Nat) : Int) + 1, 90, 1)] :=
  ⟨rfl, counter_raw_verbatim initTsdb counterState9 9 50 100 90 (by decide)
    (by decide) rfl⟩

/-- `_ensure_meta_info` with no name and no tags is a strict no-op when a
meta-info record is already stored. -/
theorem ensureMetaInfo_none_nil_present (s : State) (mid : Nat)
    (h : s.metaInfo mid ≠ none) : ensureMetaInfo s mid none [] = Except.ok s := by
  unfold ensureMetaInfo
  rw [show computeMetaInfo (s.metaInfo mid) none [] =
      Except.ok ((s.metaInfo mid).getD ⟨"", []⟩, (s.metaInfo mid).isNone) from rfl]
  dsimp only
  rw [if_neg (by simp [Option.isNone_iff_eq_none, h])]

/-- C2 (amended): a subsequent `ensure_metric_descriptor` call that addresses
an existing metric by id (no name) fails with a ValidationError when its
`(step, slots, type)` conflicts with the stored triple, and succeeds leaving
the store unchanged when the triple is identical.  (A call that reaches the
metric through an already-bound name checks only the type; see the
counterexample.) -/
theorem ensure_descriptor_meta_check (db : Tsdb) (s : State) (mid : Nat)
    (st sl st2 sl2 : Int) (ty ty2 : Nat)
    (hmid : mid ≤ U32MAX) (hmeta : s.meta mid = some (st, sl, ty))
    (hst : st2 ≠ 0) (hsl : sl2 ≠ 0) (hfits : fitsMetaFmt st2 sl2 ty2) :
    ((st2, sl2, ty2) ≠ (st, sl, ty) →
      ensureMetricDescriptor db s (some mid) ty2 (some st2) (some sl2) none none =
        Except.error "metric already registered with different metadata") ∧
    (st2 = st → sl2 = sl → ty2 = ty → s.metaInfo mid ≠ none →
      ensureMetricDescriptor db s (some mid) ty2 (some st2) (some sl2) none none =
        Except.ok (mid, s)) := by
  constructor
  · intro hne
    unfold ensureMetricDescriptor
    dsimp only
    rw [ensureU32_ok hmid]
    dsimp only
    rw [orDefault_some hst, orDefault_some hsl]
    rw [if_neg (by simp)]
    simp only [Option.getD_none]
    have hne2 : ¬(("" : String) ≠ "") := by simp
    rw [if_neg hne2]
    dsimp only
    rw [if_pos hfits, hmeta]
    dsimp only
    rw [if_pos (by
      by_contra hcon
      push_neg at hcon
      exact hne (by rw [hcon.1, hcon.2.1, hcon.2.2]))]
  · intro h1 h2 h3 hinfo
    subst h1; subst h2; subst h3
    unfold ensureMetricDescriptor
    dsimp only
    rw [ensureU32_ok hmid]
    dsimp only
    rw [orDefault_some hst, orDefault_some hsl]
    rw [if_neg (by simp)]
    simp only [Option.getD_none]
    have hne2 : ¬(("" : String) ≠ "") := by simp
    rw [if_neg hne2]
    dsimp only
    rw [if_pos hfits, hmeta]
    dsimp only
    have hcond : ¬(st2 ≠ st2 ∨ sl2 ≠ sl2 ∨ ty2 ≠ ty2) := by simp
    rw [if_neg hcond]
    simp only [if_true]
    rw [ensureMetaInfo_none_nil_present s mid hinfo]
    rfl

/-- Counterexample to C2 as stated: metric 1 is created through
`ensure_metric_descriptor(None, type=0, name="foo", tags={env:qa}, step=2,
slots=10)`; a second call reaching it through the bound name with the
conflicting step 3 succeeds (returns id 1) instead of raising. -/
theorem ensure_descriptor_conflict_counterexample :
    allocState1.meta 1 = some (2, 10, 0) ∧
    resultId (ensureMetricDescriptor initTsdb allocState1 none 0 (some 3) (some 10)
      (some "foo") (some [("env", "qa")])) = some 1 := by
  constructor
  · rfl
  · rfl

/-- Witness for the amended C2 on a concrete store. -/
theorem ensure_descriptor_meta_check_witness :
    (ensureMetricDescriptor initTsdb metaState5 (some 5) 0 (some 3) (some 10) none none =
      Except.error "metric already registered with different metadata") ∧
    (ensureMetricDescriptor initTsdb metaState5 (some 5) 0 (some 2) (some 10) none none =
      Except.ok (5, metaState5)) :=
  ⟨(ensure_descriptor_meta_check initTsdb metaState5 5 2 10 3 10 0 0 (by decide) rfl
      (by decide) (by decide) (by decide)).1 (by decide),
   (ensure_descriptor_meta_check initTsdb metaState5 5 2 10 2 10 0 0 (by decide) rfl
      (by decide) (by decide) (by decide)).2 rfl rfl rfl (by decide)⟩

/-!
### Tag-dictionary lemmas (for the descriptor-catalog proofs)
-/

/-- Unfolding lemma for `tagLookup` on a cons. -/
theorem tagLookup_cons (k0 v0 : String) (rest : Tags) (k : String) :
    tagLookup ((k0, v0) :: rest) k = if k0 = k then some v0 else tagLookup rest k := rfl

/-- Unfolding lemma for `mergeTags` on a cons. -/
theorem mergeTags_cons (base : Tags) (k v : String) (rest : Tags) :
    mergeTags base ((k, v) :: rest) =
      match tagLookup base k with
      | none => mergeTags (tagSet base k v) rest
      | some w =>
        if w = v then mergeTags (tagSet base k v) rest
        else Except.error "metric tag already set to a different value" := rfl

/-- Lookup after a rebinding map: other keys are untouched. -/
theorem tagLookup_map_set_ne (m : Tags) (k v k1 : String) (hne : k1 ≠ k) :
    tagLookup (m.map (fun p => if p.1 = k then (p.1, v) else p)) k1 = tagLookup m k1 := by
  induction m with
  | nil => rfl
  | cons hd tl ih =>
    obtain ⟨k0, v0⟩ := hd
    rw [List.map_cons]
    dsimp only
    by_cases hk : k0 = k
    · subst hk
      rw [if_pos rfl, tagLookup_cons, tagLookup_cons,
        if_neg (fun hc => hne hc.symm), if_neg (fun hc => hne hc.symm)]
      exact ih
    · rw [if_neg hk, tagLookup_cons, tagLookup_cons]
      by_cases hk1 : k0 = k1
      · rw [if_pos hk1, if_pos hk1]
      · rw [if_neg hk1, if_neg hk1]
        exact ih

/-- Lookup of the rebound key after a rebinding map. -/
theorem tagLookup_map_set_eq (m : Tags) (k v : String) :
    tagLookup (m.map (fun p => if p.1 = k then (p.1, v) else p)) k =
      (tagLookup m k).map (fun _ => v) := by
  induction m with
  | nil => rfl
  | cons hd tl ih =>
    obtain ⟨k0, v0⟩ := hd
    rw [List.map_cons]
    dsimp only
    by_cases hk : k0 = k
    · subst hk
      rw [if_pos rfl, tagLookup_cons, tagLookup_cons, if_pos rfl, if_pos rfl]
      rfl
    · rw [if_neg hk, tagLookup_cons, tagLookup_cons, if_neg hk, if_neg hk]
      exact ih

/-- Lookup through an append when the key resolves on the left. -/
theorem tagLookup_append_some {m : Tags} {k1 w : String} (l : Tags)
    (h : tagLookup m k1 = some w) : tagLookup (m ++ l) k1 = some w := by
  induction m with
  | nil => cases h
  | cons hd tl ih =>
    obtain ⟨k0, v0⟩ := hd
    rw [tagLookup_cons] at h
    rw [List.cons_append, tagLookup_cons]
    by_cases hk : k0 = k1
    · rw [if_pos hk] at h ⊢
      exact h
    · rw [if_neg hk] at h ⊢
      exact ih h

/-- Lookup through an append when the key misses on the left. -/
theorem tagLookup_append_none {m : Tags} {k1 : String} (l : Tags)
    (h : tagLookup m k1 = none) : tagLookup (m ++ l) k1 = tagLookup l k1 := by
  induction m with
  | nil => rfl
  | cons hd tl ih =>
    obtain ⟨k0, v0⟩ := hd
    rw [tagLookup_cons] at h
    rw [List.cons_append, tagLookup_cons]
    by_cases hk : k0 = k1
    · rw [if_pos hk] at h
      cases h
    · rw [if_neg hk] at h ⊢
      exact ih h

/-- Python `merged[key] = val` in terms of lookups: the assigned key reads
back the value, other keys are untouched. -/
theorem tagLookup_tagSet (m : Tags) (k v k1 : String) :
    tagLookup (tagSet m k v) k1 = if k1 = k then some v else tagLookup m k1 := by
  unfold tagSet
  cases hm : tagLookup m k with
  | none =>
    by_cases hk1 : k1 = k
    · subst hk1
      rw [if_pos rfl, tagLookup_append_none _ hm, tagLookup_cons, if_pos rfl]
    · rw [if_neg hk1]
      cases hl : tagLookup m k1 with
      | none =>
        rw [tagLookup_append_none _ hl, tagLookup_cons,
          if_neg (fun hc => hk1 hc.symm)]
        rfl
      | some w => exact tagLookup_append_some _ hl
  | some w =>
    by_cases hk1 : k1 = k
    · subst hk1
      rw [if_pos rfl, tagLookup_map_set_eq, hm]
      rfl
    · rw [if_neg hk1, tagLookup_map_set_ne m k v k1 hk1]

/-- An absent key is absent from the key list. -/
theorem tagLookup_none_iff (m : Tags) (k : String) :
    tagLookup m k = none ↔ k ∉ tagKeys m := by
  induction m with
  | nil => simp [tagLookup, tagKeys]
  | cons hd tl ih =>
    obtain ⟨k0, v0⟩ := hd
    rw [tagLookup_cons]
    by_cases hk : k0 = k
    · subst hk
      simp [tagKeys]
    · rw [if_neg hk]
      simp only [tagKeys, List.map_cons, List.mem_cons]
      rw [ih]
      unfold tagKeys
      constructor
      · intro h hc
        rcases hc with hc | hc
        · exact hk hc.symm
        · exact h hc
      · intro h hc
        exact h (Or.inr hc)

/-- With unique keys, every entry is its own first match. -/
theorem tagLookup_of_mem_nodup {m : Tags} (hnd : (tagKeys m).Nodup)
    {p : String × String} (hp : p ∈ m) : tagLookup m p.1 = some p.2 := by
  induction m with
  | nil => cases hp
  | cons hd tl ih =>
    obtain ⟨k0, v0⟩ := hd
    simp only [tagKeys, List.map_cons, List.nodup_cons] at hnd
    rcases List.mem_cons.mp hp with hp0 | hp1
    · subst hp0
      rw [tagLookup_cons, if_pos rfl]
    · rw [tagLookup_cons]
      by_cases hk : k0 = p.1
      · exfalso
        apply hnd.1
        rw [hk]
        exact List.mem_map.mpr ⟨p, hp1, rfl⟩
      · rw [if_neg hk]
        exact ih hnd.2 hp1

/-- With unique keys, rebinding a key to the value it already has is the
identity on the list. -/
theorem tagSet_self {m : Tags} (hnd : (tagKeys m).Nodup) {k v : String}
    (h : tagLookup m k = some v) : tagSet m k v = m := by
  unfold tagSet
  rw [h]
  have hall : ∀ p ∈ m, (if p.1 = k then (p.1, v) else p) = p := by
    intro p hp
    by_cases hk : p.1 = k
    · have h2 := tagLookup_of_mem_nodup hnd hp
      rw [hk, h] at h2
      obtain rfl : v = p.2 := by injection h2
      rw [if_pos hk]
    · rw [if_neg hk]
  calc m.map (fun p => if p.1 = k then (p.1, v) else p) = m.map id :=
        List.map_congr_left hall
    _ = m := List.map_id m

/-- `tagSet` on a bound key preserves the key list. -/
theorem tagKeys_tagSet_present {m : Tags} {k w : String} (v : String)
    (h : tagLookup m k = some w) : tagKeys (tagSet m k v) = tagKeys m := by
  unfold tagSet
  rw [h]
  unfold tagKeys
  rw [List.map_map]
  apply List.map_congr_left
  intro p _
  by_cases hk : p.1 = k
  · simp [hk]
  · simp [hk]

/-- `tagSet` on an absent key appends it to the key list. -/
theorem tagKeys_tagSet_absent {m : Tags} {k : String} (v : String)
    (h : tagLookup m k = none) : tagKeys (tagSet m k v) = tagKeys m ++ [k] := by
  unfold tagSet
  rw [h]
  unfold tagKeys
  rw [List.map_append]
  rfl

/-- Merging never erases an existing binding. -/
theorem mergeTags_preserves {add : Tags} :
    ∀ {base m : Tags}, mergeTags base add = Except.ok m →
      ∀ {k w : String}, tagLookup base k = some w → tagLookup m k = some w := by
  induction add with
  | nil =>
    intro base m h k w hk
    obtain rfl : base = m := by injection h
    exact hk
  | cons hd tl ih =>
    intro base m h k w hk
    obtain ⟨k1, v1⟩ := hd
    rw [mergeTags_cons] at h
    cases hb : tagLookup base k1 with
    | none =>
      rw [hb] at h
      dsimp only at h
      refine ih h ?_
      rw [tagLookup_tagSet]
      split_ifs with hkk
      · subst hkk
        rw [hb] at hk
        cases hk
      · exact hk
    | some w1 =>
      rw [hb] at h
      dsimp only at h
      split_ifs at h with hv
      subst hv
      refine ih h ?_
      rw [tagLookup_tagSet]
      split_ifs with hkk
      · subst hkk
        rw [hb] at hk
        exact hk
      · exact hk

/-- After a successful merge, every merged pair reads back its value. -/
theorem mergeTags_lookup {add : Tags} :
    ∀ {base m : Tags}, mergeTags base add = Except.ok m →
      ∀ p ∈ add, tagLookup m p.1 = some p.2 := by
  induction add with
  | nil =>
    intro base m _ p hp
    cases hp
  | cons hd tl ih =>
    intro base m h p hp
    obtain ⟨k1, v1⟩ := hd
    rw [mergeTags_cons] at h
    cases hb : tagLookup base k1 with
    | none =>
      rw [hb] at h
      dsimp only at h
      rcases List.mem_cons.mp hp with hp0 | hp1
      · subst hp0
        refine mergeTags_preserves h ?_
        rw [tagLookup_tagSet, if_pos rfl]
      · exact ih h p hp1
    | some w1 =>
      rw [hb] at h
      dsimp only at h
      split_ifs at h with hv
      subst hv
      rcases List.mem_cons.mp hp with hp0 | hp1
      · subst hp0
        refine mergeTags_preserves h ?_
        rw [tagLookup_tagSet, if_pos rfl]
      · exact ih h p hp1

/-- Merging preserves uniqueness of keys. -/
theorem mergeTags_nodup {add : Tags} :
    ∀ {base m : Tags}, mergeTags base add = Except.ok m →
      (tagKeys base).Nodup → (tagKeys m).Nodup := by
  induction add with
  | nil =>
    intro base m h hnd
    obtain rfl : base = m := by injection h
    exact hnd
  | cons hd tl ih =>
    intro base m h hnd
    obtain ⟨k1, v1⟩ := hd
    rw [mergeTags_cons] at h
    cases hb : tagLookup base k1 with
    | none =>
      rw [hb] at h
      dsimp only at h
      refine ih h ?_
      rw [tagKeys_tagSet_absent _ hb]
      have hk1 : k1 ∉ tagKeys base := (tagLookup_none_iff base k1).mp hb
      simp [List.nodup_append, hnd, hk1]
    | some w1 =>
      rw [hb] at h
      dsimp only at h
      split_ifs at h with hv
      subst hv
      refine ih h ?_
      rw [tagKeys_tagSet_present _ hb]
      exact hnd

/-- Re-merging pairs that already read back their values is a no-op. -/
theorem mergeTags_idem {add : Tags} :
    ∀ {m : Tags}, (tagKeys m).Nodup → (∀ p ∈ add, tagLookup m p.1 = some p.2) →
      mergeTags m add = Except.ok m := by
  induction add with
  | nil => intro m _ _; rfl
  | cons hd tl ih =>
    intro m hnd hall
    obtain ⟨k1, v1⟩ := hd
    have h1 : tagLookup m k1 = some v1 := hall (k1, v1) (List.mem_cons_self _ _)
    rw [mergeTags_cons, h1]
    dsimp only
    rw [if_pos rfl, tagSet_self hnd h1]
    exact ih hnd (fun p hp => hall p (List.mem_cons_of_mem _ hp))

/-- With unique keys, a dictionary equals itself under Python `==`. -/
theorem dictEq_self {m : Tags} (hnd : (tagKeys m).Nodup) : dictEq m m = true := by
  unfold dictEq
  rw [Bool.and_eq_true]
  constructor <;>
    · rw [List.all_eq_true]
      intro p hp
      rw [beq_iff_eq]
      exact tagLookup_of_mem_nodup hnd hp

/-- Merging fresh, unique keys appends them. -/
theorem mergeTags_fresh {add : Tags} :
    ∀ {base : Tags}, (∀ p ∈ add, tagLookup base p.1 = none) → (tagKeys add).Nodup →
      mergeTags base add = Except.ok (base ++ add) := by
  induction add with
  | nil =>
    intro base _ _
    rw [List.append_nil]
    rfl
  | cons hd tl ih =>
    intro base hfresh hnd
    obtain ⟨k1, v1⟩ := hd
    have h1 : tagLookup base k1 = none := hfresh (k1, v1) (List.mem_cons_self _ _)
    rw [mergeTags_cons, h1]
    dsimp only
    rw [show tagSet base k1 v1 = base ++ [(k1, v1)] from by unfold tagSet; rw [h1]]
    rw [show base ++ (k1, v1) :: tl = (base ++ [(k1, v1)]) ++ tl from by
      rw [List.append_assoc]; rfl]
    simp only [tagKeys, List.map_cons, List.nodup_cons] at hnd
    refine ih ?_ hnd.2
    intro p hp
    rw [tagLookup_append_none _ (hfresh p (List.mem_cons_of_mem _ hp)),
      tagLookup_cons, if_neg ?_]
    · rfl
    · intro hc
      exact hnd.1 (hc ▸ List.mem_map.mpr ⟨p, hp, rfl⟩)

/-- A successful first-match lookup exhibits a member of the list. -/
theorem tagLookup_mem {m : Tags} {k w : String} (h : tagLookup m k = some w) :
    (k, w) ∈ m := by
  induction m with
  | nil => cases h
  | cons hd tl ih =>
    obtain ⟨k0, v0⟩ := hd
    rw [tagLookup_cons] at h
    by_cases hk : k0 = k
    · rw [if_pos hk] at h
      obtain rfl : v0 = w := by injection h
      subst hk
      exact List.mem_cons_self _ _
    · rw [if_neg hk] at h
      exact List.mem_cons_of_mem _ (ih h)

/-- Shape of a successful `_ensure_meta_info` merge with a non-empty name:
the resulting record carries the name, unique tag keys, every requested tag,
and when nothing was written the stored record was already the result. -/
theorem computeMetaInfo_ok {infoOld : Option MetaInfo} {nm : String} {tags : Tags}
    {info2 : MetaInfo} {ch : Bool}
    (hnm : nm ≠ "")
    (hnd : ∀ i, infoOld = some i → (tagKeys i.tags).Nodup)
    (h : computeMetaInfo infoOld (some nm) tags = Except.ok (info2, ch)) :
    info2.name = nm ∧ (tagKeys info2.tags).Nodup ∧
      (∀ p ∈ tags, tagLookup info2.tags p.1 = some p.2) ∧
      (ch = false → infoOld = some info2) := by
  cases infoOld with
  | none =>
    unfold computeMetaInfo at h
    simp only [Option.getD_some] at h
    rw [if_pos hnm] at h
    rw [show (none : Option MetaInfo).getD ⟨"", []⟩ = (⟨"", []⟩ : MetaInfo) from rfl] at h
    dsimp only at h
    rw [if_neg (by simp), if_pos rfl] at h
    dsimp only at h
    by_cases htg : tags = []
    · subst htg
      rw [if_neg (fun hc => hc rfl)] at h
      dsimp only at h
      injection h with h2
      rw [Prod.mk.injEq] at h2
      obtain ⟨hinfo, hch⟩ := h2
      subst hinfo
      refine ⟨rfl, List.nodup_nil, ?_, ?_⟩
      · intro p hp; cases hp
      · intro hcf; rw [← hch] at hcf; simp at hcf
    · rw [if_pos htg] at h
      cases hmg : mergeTags ([] : Tags) tags with
      | error e => rw [hmg] at h; dsimp only at h; cases h
      | ok merged =>
        rw [hmg] at h
        dsimp only at h
        by_cases hde : dictEq merged [] = true
        · rw [if_pos hde] at h
          dsimp only at h
          injection h with h2
          rw [Prod.mk.injEq] at h2
          obtain ⟨hinfo, hch⟩ := h2
          subst hinfo
          refine ⟨rfl, List.nodup_nil, ?_, ?_⟩
          · intro p hp
            have h1 := mergeTags_lookup hmg p hp
            have h2m := tagLookup_mem h1
            unfold dictEq at hde
            rw [Bool.and_eq_true] at hde
            have h3 := List.all_eq_true.mp hde.1 (p.1, p.2) h2m
            rw [beq_iff_eq] at h3
            exact h3
          · intro hcf; rw [← hch] at hcf; simp at hcf
        · rw [if_neg hde] at h
          dsimp only at h
          injection h with h2
          rw [Prod.mk.injEq] at h2
          obtain ⟨hinfo, hch⟩ := h2
          subst hinfo
          refine ⟨rfl, mergeTags_nodup hmg List.nodup_nil,
            fun p hp => mergeTags_lookup hmg p hp, ?_⟩
          intro hcf; rw [← hch] at hcf; simp at hcf
  | some iOld =>
    have hnd0 : (tagKeys iOld.tags).Nodup := hnd iOld rfl
    unfold computeMetaInfo at h
    simp only [Option.getD_some] at h
    rw [if_pos hnm] at h
    by_cases h0 : iOld.name = ""
    · rw [if_neg (fun hc => hc.1 h0), if_pos h0] at h
      dsimp only at h
      by_cases htg : tags = []
      · subst htg
        rw [if_neg (fun hc => hc rfl)] at h
        dsimp only at h
        injection h with h2
        rw [Prod.mk.injEq] at h2
        obtain ⟨hinfo, hch⟩ := h2
        subst hinfo
        refine ⟨rfl, hnd0, ?_, ?_⟩
        · intro p hp; cases hp
        · intro hcf; rw [← hch] at hcf; simp at hcf
      · rw [if_pos htg] at h
        cases hmg : mergeTags iOld.tags tags with
        | error e => rw [hmg] at h; dsimp only at h; cases h
        | ok merged =>
          rw [hmg] at h
          dsimp only at h
          by_cases hde : dictEq merged iOld.tags = true
          · rw [if_pos hde] at h
            dsimp only at h
            injection h with h2
            rw [Prod.mk.injEq] at h2
            obtain ⟨hinfo, hch⟩ := h2
            subst hinfo
            refine ⟨rfl, hnd0, ?_, ?_⟩
            · intro p hp
              have h1 := mergeTags_lookup hmg p hp
              have h2m := tagLookup_mem h1
              unfold dictEq at hde
              rw [Bool.and_eq_true] at hde
              have h3 := List.all_eq_true.mp hde.1 (p.1, p.2) h2m
              rw [beq_iff_eq] at h3
              exact h3
            · intro hcf; rw [← hch] at hcf; simp at hcf
          · rw [if_neg hde] at h
            dsimp only at h
            injection h with h2
            rw [Prod.mk.injEq] at h2
            obtain ⟨hinfo, hch⟩ := h2
            subst hinfo
            refine ⟨rfl, mergeTags_nodup hmg hnd0,
              fun p hp => mergeTags_lookup hmg p hp, ?_⟩
            intro hcf; rw [← hch] at hcf; simp at hcf
    · by_cases h0n : iOld.name = nm
      · rw [if_neg (fun hc => hc.2 h0n), if_neg h0] at h
        dsimp only at h
        by_cases htg : tags = []
        · subst htg
          rw [if_neg (fun hc => hc rfl)] at h
          dsimp only at h
          injection h with h2
          rw [Prod.mk.injEq] at h2
          obtain ⟨hinfo, hch⟩ := h2
          subst hinfo
          refine ⟨h0n, hnd0, ?_, ?_⟩
          · intro p hp; cases hp
          · intro _; rfl
        · rw [if_pos htg] at h
          cases hmg : mergeTags iOld.tags tags with
          | error e => rw [hmg] at h; dsimp only at h; cases h
          | ok merged =>
            rw [hmg] at h
            dsimp only at h
            by_cases hde : dictEq merged iOld.tags = true
            · rw [if_pos hde] at h
              dsimp only at h
              injection h with h2
              rw [Prod.mk.injEq] at h2
              obtain ⟨hinfo, hch⟩ := h2
              subst hinfo
              refine ⟨h0n, hnd0, ?_, ?_⟩
              · intro p hp
                have h1 := mergeTags_lookup hmg p hp
                have h2m := tagLookup_mem h1
                unfold dictEq at hde
                rw [Bool.and_eq_true] at hde
                have h3 := List.all_eq_true.mp hde.1 (p.1, p.2) h2m
                rw [beq_iff_eq] at h3
                exact h3
              · intro _; rfl
            · rw [if_neg hde] at h
              dsimp only at h
              injection h with h2
              rw [Prod.mk.injEq] at h2
              obtain ⟨hinfo, hch⟩ := h2
              subst hinfo
              refine ⟨h0n, mergeTags_nodup hmg hnd0,
                fun p hp => mergeTags_lookup hmg p hp, ?_⟩
              intro hcf; rw [← hch] at hcf; simp at hcf
      · rw [if_pos ⟨h0, h0n⟩] at h
        dsimp only at h
        cases h

/-- Re-running the `_ensure_meta_info` merge on its own result changes
nothing and requests no write-back. -/
theorem computeMetaInfo_idem {nm : String} {tags : Tags} {info2 : MetaInfo}
    (hnm : nm ≠ "") (hname : info2.name = nm)
    (hnd : (tagKeys info2.tags).Nodup)
    (hlk : ∀ p ∈ tags, tagLookup info2.tags p.1 = some p.2) :
    computeMetaInfo (some info2) (some nm) tags = Except.ok (info2, false) := by
  unfold computeMetaInfo
  simp only [Option.getD_some]
  rw [if_pos hnm]
  rw [if_neg (fun hc => hc.2 hname), if_neg (fun hc => hnm (hname ▸ hc))]
  dsimp only
  by_cases htg : tags = []
  · subst htg
    rw [if_neg (fun hc => hc rfl)]
    rfl
  · rw [if_pos htg, mergeTags_idem hnd hlk]
    dsimp only
    rw [if_pos (dictEq_self hnd)]
    rfl

/-- `_ensure_meta_info` touches only the meta-info keyspace. -/
theorem ensureMetaInfo_frame {s s1 : State} {mid : Nat} {name? : Option String}
    {tags : Tags} (h : ensureMetaInfo s mid name? tags = Except.ok s1) :
    s1.meta = s.meta ∧ s1.values = s.values ∧ s1.descriptors = s.descriptors ∧
      s1.counter = s.counter := by
  unfold ensureMetaInfo at h
  cases hc : computeMetaInfo (s.metaInfo mid) name? tags with
  | error e => rw [hc] at h; cases h
  | ok r =>
    obtain ⟨info2, sw⟩ := r
    rw [hc] at h
    dsimp only at h
    by_cases hsw : sw = true
    · rw [if_pos hsw] at h
      obtain rfl : _ = s1 := by injection h
      exact ⟨rfl, rfl, rfl, rfl⟩
    · rw [if_neg hsw] at h
      obtain rfl : s = s1 := by injection h
      exact ⟨rfl, rfl, rfl, rfl⟩

/-- Running `_ensure_meta_info` again, on any store holding the record the
first run produced, succeeds without writing. -/
theorem ensureMetaInfo_second {s s1 t : State} {mid : Nat} {nm : String} {tags : Tags}
    (hnm : nm ≠ "")
    (hnd : ∀ i, s.metaInfo mid = some i → (tagKeys i.tags).Nodup)
    (h : ensureMetaInfo s mid (some nm) tags = Except.ok s1)
    (ht : t.metaInfo mid = s1.metaInfo mid) :
    ensureMetaInfo t mid (some nm) tags = Except.ok t := by
  unfold ensureMetaInfo at h
  cases hc : computeMetaInfo (s.metaInfo mid) (some nm) tags with
  | error e => rw [hc] at h; cases h
  | ok r =>
    obtain ⟨info2, sw⟩ := r
    rw [hc] at h
    dsimp only at h
    obtain ⟨hname, hnd2, hlk, hfix⟩ := computeMetaInfo_ok hnm hnd hc
    have htm : t.metaInfo mid = some info2 := by
      by_cases hsw : sw = true
      · rw [if_pos hsw] at h
        obtain rfl : _ = s1 := by injection h
        rw [ht]
        dsimp only
        rw [if_pos rfl]
      · rw [if_neg hsw] at h
        obtain rfl : s = s1 := by injection h
        rw [ht]
        exact hfix (Bool.eq_false_iff.mpr hsw)
    unfold ensureMetaInfo
    rw [htm, computeMetaInfo_idem hnm hname hnd2 hlk]
    dsimp only
    rw [if_neg (by decide : ¬((false : Bool) = true))]

/-- Inversion of a successful `ensure_metric_descriptor` call without a
metric id: the name is non-empty, the returned id fits in `u32`, the
descriptor key is bound to it, any stored meta has the requested type, and
the meta-info record at the id is the result of a successful
`_ensure_meta_info` run on well-formed tags. -/
theorem ensureMetricDescriptor_inv {db : Tsdb} {s : State} {typ : Nat}
    {step? slots? : Option Int} {nm : String} {tags : Tags} {X : Nat} {s2 : State}
    (hwf : ∀ m i, s.metaInfo m = some i → (tagKeys i.tags).Nodup)
    (h : ensureMetricDescriptor db s none typ step? slots? (some nm) (some tags) =
      Except.ok (X, s2)) :
    nm ≠ "" ∧ X ≤ U32MAX ∧ lookupDescriptorTr s2 nm tags = some X ∧
      (∀ m, s2.meta X = some m → m.2.2 = typ) ∧
      ∃ t s1, (∀ i, t.metaInfo X = some i → (tagKeys i.tags).Nodup) ∧
        ensureMetaInfo t X (some nm) tags = Except.ok s1 ∧
        s2.metaInfo X = s1.metaInfo X := by
  unfold ensureMetricDescriptor at h
  dsimp only at h
  simp only [Option.getD_some] at h
  by_cases hnm : nm = ""
  · rw [if_pos ⟨trivial, hnm⟩] at h
    cases h
  · rw [if_neg (fun hc => hnm hc.2), if_pos hnm] at h
    refine ⟨hnm, ?_⟩
    cases hlk : lookupDescriptorTr s nm tags with
    | some eid =>
      rw [hlk] at h
      dsimp only at h
      by_cases hu : U32MAX < eid
      · rw [show ensureU32 eid = Except.error "metric_id must fit in uint32" from by
          unfold ensureU32; rw [if_pos hu]] at h
        dsimp only at h
        cases h
      · rw [ensureU32_ok (Nat.le_of_not_lt hu)] at h
        dsimp only at h
        cases hm : s.meta eid with
        | some m =>
          rw [hm] at h
          dsimp only at h
          by_cases hty : m.2.2 ≠ typ
          · rw [if_pos hty] at h
            cases h
          · rw [if_neg hty] at h
            cases hmi : ensureMetaInfo s eid (some nm) tags with
            | error e => rw [hmi] at h; dsimp only at h; cases h
            | ok s1 =>
              rw [hmi] at h
              dsimp only at h
              injection h with h2
              rw [Prod.mk.injEq] at h2
              obtain ⟨rfl, rfl⟩ := h2
              obtain ⟨hfm, hfv, hfd, hfc⟩ := ensureMetaInfo_frame hmi
              refine ⟨Nat.le_of_not_lt hu, ?_, ?_, s, s1, fun i hi => hwf eid i hi,
                hmi, rfl⟩
              · unfold lookupDescriptorTr at hlk ⊢
                rw [hfd]
                exact hlk
              · intro m1 hm1
                rw [hfm, hm] at hm1
                obtain rfl : m = m1 := by injection hm1
                exact not_ne_iff.mp hty
        | none =>
          rw [hm] at h
          dsimp only at h
          cases hmi : ensureMetaInfo s eid (some nm) tags with
          | error e => rw [hmi] at h; dsimp only at h; cases h
          | ok s1 =>
            rw [hmi] at h
            dsimp only at h
            injection h with h2
            rw [Prod.mk.injEq] at h2
            obtain ⟨rfl, rfl⟩ := h2
            obtain ⟨hfm, hfv, hfd, hfc⟩ := ensureMetaInfo_frame hmi
            refine ⟨Nat.le_of_not_lt hu, ?_, ?_, s, s1, fun i hi => hwf eid i hi,
              hmi, rfl⟩
            · unfold lookupDescriptorTr at hlk ⊢
              rw [hfd]
              exact hlk
            · intro m1 hm1
              rw [hfm, hm] at hm1
              cases hm1
    | none =>
      rw [hlk] at h
      dsimp only at h
      generalize hga : allocateMetricId s = a at h
      obtain ⟨N, s0⟩ := a
      rw [show allocateMetricId s =
          (s.counter.getD 0 + 1, { s with counter := some (s.counter.getD 0 + 1) })
          from rfl] at hga
      rw [Prod.mk.injEq] at hga
      obtain ⟨hN, hs0⟩ := hga
      dsimp only at h
      have hs0m : s0.meta = s.meta := by rw [← hs0]
      have hs0i : s0.metaInfo = s.metaInfo := by rw [← hs0]
      have hs0d : s0.descriptors = s.descriptors := by rw [← hs0]
      rw [if_neg hnm] at h
      by_cases hu : U32MAX < N
      · rw [show ensureU32 N = Except.error "metric_id must fit in uint32" from by
          unfold ensureU32; rw [if_pos hu]] at h
        dsimp only at h
        cases h
      · rw [ensureU32_ok (Nat.le_of_not_lt hu)] at h
        dsimp only at h
        by_cases hf : fitsMetaFmt (orDefault step? db.defaultStep)
            (orDefault slots? db.defaultSlots) typ
        · rw [if_pos hf] at h
          cases hm : s0.meta N with
          | some cm =>
            obtain ⟨cs, csl, cty⟩ := cm
            rw [hm] at h
            dsimp only at h
            by_cases hcf : cs ≠ orDefault step? db.defaultStep ∨
                csl ≠ orDefault slots? db.defaultSlots ∨ cty ≠ typ
            · rw [if_pos hcf] at h
              cases h
            · rw [if_neg hcf] at h
              push_neg at hcf
              obtain ⟨hcs, hcsl, hcty⟩ := hcf
              cases hmi : ensureMetaInfo s0 N (some nm) tags with
              | error e => rw [hmi] at h; dsimp only at h; cases h
              | ok s1 =>
                rw [hmi] at h
                dsimp only at h
                obtain ⟨hfm, hfv, hfd, hfc⟩ := ensureMetaInfo_frame hmi
                have hdn : s1.descriptors nm (descriptorKeyTags tags) = none := by
                  rw [hfd, hs0d]
                  exact hlk
                rw [show ensureDescriptorTr s1 N (some nm) tags = Except.ok
                    { s1 with descriptors := fun n t =>
                        if n = nm ∧ t = descriptorKeyTags tags then some N
                        else s1.descriptors n t } from by
                  unfold ensureDescriptorTr
                  dsimp only
                  rw [if_neg hnm, hdn]] at h
                dsimp only at h
                injection h with h2
                rw [Prod.mk.injEq] at h2
                obtain ⟨rfl, rfl⟩ := h2
                refine ⟨Nat.le_of_not_lt hu, ?_, ?_, s0, s1,
                  fun i hi => hwf N i (by rw [← hs0i]; exact hi), hmi, rfl⟩
                · unfold lookupDescriptorTr
                  dsimp only
                  rw [if_pos (⟨rfl, rfl⟩ : nm = nm ∧ descriptorKeyTags tags = descriptorKeyTags tags)]
                · intro m1 hm1
                  dsimp only at hm1
                  rw [hfm, hm] at hm1
                  obtain rfl : (cs, csl, cty) = m1 := by injection hm1
                  exact hcty
          | none =>
            rw [hm] at h
            dsimp only at h
            cases hmi : ensureMetaInfo { s0 with meta := fun m => if m = N then some (orDefault step? db.defaultStep, orDefault slots? db.defaultSlots, typ) else s0.meta m } N (some nm) tags with
            | error e => rw [hmi] at h; dsimp only at h; cases h
            | ok s1 =>
              rw [hmi] at h
              dsimp only at h
              obtain ⟨hfm, hfv, hfd, hfc⟩ := ensureMetaInfo_frame hmi
              have hdn : s1.descriptors nm (descriptorKeyTags tags) = none := by
                rw [hfd]
                dsimp only
                rw [hs0d]
                exact hlk
              rw [show ensureDescriptorTr s1 N (some nm) tags = Except.ok
                  { s1 with descriptors := fun n t =>
                      if n = nm ∧ t = descriptorKeyTags tags then some N
                      else s1.descriptors n t } from by
                unfold ensureDescriptorTr
                dsimp only
                rw [if_neg hnm, hdn]] at h
              dsimp only at h
              injection h with h2
              rw [Prod.mk.injEq] at h2
              obtain ⟨rfl, rfl⟩ := h2
              refine ⟨Nat.le_of_not_lt hu, ?_, ?_, { s0 with meta := fun m => if m = N then some (orDefault step? db.defaultStep, orDefault slots? db.defaultSlots, typ) else s0.meta m }, s1, fun i hi => hwf N i (by rw [← hs0i]; exact hi), hmi, rfl⟩
              · unfold lookupDescriptorTr
                dsimp only
                rw [if_pos (⟨rfl, rfl⟩ : nm = nm ∧ descriptorKeyTags tags = descriptorKeyTags tags)]
              · intro m1 hm1
                dsimp only at hm1
                rw [hfm] at hm1
                dsimp only at hm1
                rw [if_pos rfl] at hm1
                obtain rfl : _ = m1 := by injection hm1
                rfl
        · rw [if_neg hf] at h
          cases h

/-- **C4.** Descriptor allocation is idempotent per `(name, tags)`: a
successful `ensure_metric_descriptor` call with no metric id, a name and
tags returns some id `X` and a store `s2`, and repeating the identical call
on `s2` returns the same `X` without allocating a new id or changing the
store. -/
theorem descriptor_allocation_idempotent {db : Tsdb} {s s2 : State} {typ : Nat}
    {step? slots? : Option Int} {nm : String} {tags : Tags} {X : Nat}
    (hwf : ∀ m i, s.metaInfo m = some i → (tagKeys i.tags).Nodup)
    (h : ensureMetricDescriptor db s none typ step? slots? (some nm) (some tags) =
      Except.ok (X, s2)) :
    ensureMetricDescriptor db s2 none typ step? slots? (some nm) (some tags) =
      Except.ok (X, s2) := by
  obtain ⟨hnm, hub, hlk2, hty2, t, s1, hnd1, hmi, hmeq⟩ :=
    ensureMetricDescriptor_inv hwf h
  unfold ensureMetricDescriptor
  dsimp only
  simp only [Option.getD_some]
  rw [if_neg (fun hc => hnm hc.2), if_pos hnm, hlk2]
  dsimp only
  rw [ensureU32_ok hub]
  dsimp only
  cases hm2 : s2.meta X with
  | some m =>
    dsimp only
    rw [if_neg (fun hc => hc (hty2 m hm2))]
    rw [ensureMetaInfo_second hnm hnd1 hmi hmeq]
  | none =>
    dsimp only
    rw [ensureMetaInfo_second hnm hnd1 hmi hmeq]

/-- Witness for C4: allocating `("foo", {env: qa})` on an empty store yields
id 1, and the identical second call returns id 1 with the store unchanged. -/
theorem descriptor_allocation_idempotent_witness :
    ensureMetricDescriptor initTsdb allocState1 none 0 (some 2) (some 10)
      (some "foo") (some [("env", "qa")]) = Except.ok (1, allocState1) :=
  @descriptor_allocation_idempotent initTsdb emptyState allocState1 0 (some 2) (some 10)
    "foo" [("env", "qa")] 1 (fun m i hmi => nomatch hmi) (by rfl)

/-- With no stored record, the `_ensure_meta_info` merge always succeeds on
tags with unique keys. -/
theorem computeMetaInfo_none_ok (n? : Option String) {tg : Tags}
    (hnd : (tagKeys tg).Nodup) :
    ∃ r, computeMetaInfo none n? tg = Except.ok r := by
  unfold computeMetaInfo
  rw [show (none : Option MetaInfo).getD ⟨"", []⟩ = (⟨"", []⟩ : MetaInfo) from rfl]
  dsimp only
  by_cases hn : n?.getD "" ≠ ""
  · rw [if_pos hn]
    rw [if_neg (by simp), if_pos rfl]
    dsimp only
    by_cases ht : tg = []
    · subst ht
      rw [if_neg (fun hc => hc rfl)]
      exact ⟨_, rfl⟩
    · rw [if_pos ht, (mergeTags_fresh (fun p _ => rfl) hnd :
        mergeTags [] tg = Except.ok ([] ++ tg))]
      dsimp only
      by_cases hde : dictEq ([] ++ tg) [] = true
      · rw [if_pos hde]
        exact ⟨_, rfl⟩
      · rw [if_neg hde]
        exact ⟨_, rfl⟩
  · rw [if_neg hn]
    dsimp only
    by_cases ht : tg = []
    · subst ht
      rw [if_neg (fun hc => hc rfl)]
      exact ⟨_, rfl⟩
    · rw [if_pos ht, (mergeTags_fresh (fun p _ => rfl) hnd :
        mergeTags [] tg = Except.ok ([] ++ tg))]
      dsimp only
      by_cases hde : dictEq ([] ++ tg) [] = true
      · rw [if_pos hde]
        exact ⟨_, rfl⟩
      · rw [if_neg hde]
        exact ⟨_, rfl⟩

/-- `_ensure_meta_info` on a metric with no stored record succeeds and
touches only the meta-info keyspace. -/
theorem ensureMetaInfo_none_exists (s : State) (mid : Nat) (n? : Option String)
    {tg : Tags} (h0 : s.metaInfo mid = none) (hnd : (tagKeys tg).Nodup) :
    ∃ s2, ensureMetaInfo s mid n? tg = Except.ok s2 ∧ s2.meta = s.meta ∧
      s2.values = s.values ∧ s2.descriptors = s.descriptors := by
  obtain ⟨r, hr⟩ := computeMetaInfo_none_ok n? hnd
  obtain ⟨info2, sw⟩ := r
  unfold ensureMetaInfo
  rw [h0, hr]
  dsimp only
  cases sw with
  | false =>
    rw [if_neg (by decide : ¬((false : Bool) = true))]
    exact ⟨s, rfl, rfl, rfl, rfl⟩
  | true =>
    rw [if_pos rfl]
    exact ⟨_, rfl, rfl, rfl, rfl⟩

/-- `_ensure_descriptor` succeeds whenever the key it would write is not
bound, touching only the descriptor keyspace. -/
theorem ensureDescriptorTr_ok_of_unbound (s : State) (mid : Nat) {n? : Option String}
    {tg : Tags}
    (h : ∀ nmx, n? = some nmx → nmx ≠ "" →
      s.descriptors nmx (descriptorKeyTags tg) = none) :
    ∃ s3, ensureDescriptorTr s mid n? tg = Except.ok s3 ∧ s3.meta = s.meta ∧
      s3.values = s.values ∧ s3.metaInfo = s.metaInfo := by
  unfold ensureDescriptorTr
  cases n? with
  | none => exact ⟨s, rfl, rfl, rfl, rfl⟩
  | some nmx =>
    dsimp only
    by_cases hx : nmx = ""
    · rw [if_pos hx]
      exact ⟨s, rfl, rfl, rfl, rfl⟩
    · rw [if_neg hx, h nmx rfl hx]
      exact ⟨_, rfl, rfl, rfl, rfl⟩

/-- `delete_metric` on a stored metric clears its values, meta, meta-info
and (for a non-empty stored name) its descriptor binding. -/
theorem deleteMetric_ok {s : State} {mid : Nat} {m0 : Int × Int × Nat}
    (hmid : mid ≤ U32MAX) (hm : s.meta mid = some m0) :
    ∃ s1, deleteMetric s mid = Except.ok s1 ∧
      s1.meta = (fun m => if m = mid then none else s.meta m) ∧
      s1.values = (fun m j => if m = mid then none else s.values m j) ∧
      s1.metaInfo = (fun m => if m = mid then none else s.metaInfo m) ∧
      s1.descriptors = (fun n t =>
        if (((s.metaInfo mid).map MetaInfo.name).getD "") ≠ "" ∧
            n = (((s.metaInfo mid).map MetaInfo.name).getD "") ∧
            t = descriptorKeyTags (((s.metaInfo mid).map MetaInfo.tags).getD [])
        then none else s.descriptors n t) := by
  refine ⟨{ s with
            values := fun m j => if m = mid then none else s.values m j
            meta := fun m => if m = mid then none else s.meta m
            metaInfo := fun m => if m = mid then none else s.metaInfo m
            descriptors := fun n t =>
              if (((s.metaInfo mid).map MetaInfo.name).getD "") ≠ "" ∧
                  n = (((s.metaInfo mid).map MetaInfo.name).getD "") ∧
                  t = descriptorKeyTags (((s.metaInfo mid).map MetaInfo.tags).getD [])
              then none else s.descriptors n t }, ?_, rfl, rfl, rfl, rfl⟩
  unfold deleteMetric
  rw [ensureU32_ok hmid]
  dsimp only
  rw [hm]

/-- Unfolding of one replay step. -/
theorem replayRows_cons (s : State) (mid : Nat) (ts : Int) (v : ℚ) (ty : Nat)
    (rest : List Sample) :
    replayRows s mid ((ts, v, ty) :: rest) =
      match writeValue s mid ts v with
      | Except.error e => (some e, s)
      | Except.ok s1 => replayRows s1 mid rest := rfl

/-- The replay loop of `rewrite_metric_retention` on a positive-step gauge
ring with in-range windows never fails, keeps the meta keyspace, and
applies exactly the slot updates of the row list. -/
theorem replayRows_ok {rows : List Sample} :
    ∀ {s : State} {mid : Nat} {st sl : Int},
      mid ≤ U32MAX → s.meta mid = some (st, sl, 0) → 0 < st → 0 < sl →
      sl ≤ (U32MAX : Int) + 1 →
      (∀ x ∈ rows, 0 ≤ Int.fdiv x.1 st ∧ Int.fdiv x.1 st ≤ (U32MAX : Int)) →
      (replayRows s mid rows).1 = none ∧
        (replayRows s mid rows).2.meta = s.meta ∧
        (replayRows s mid rows).2.values mid = ringReplay st sl (s.values mid) rows := by
  induction rows with
  | nil =>
    intro s mid st sl _ _ _ _ _ _
    exact ⟨rfl, rfl, rfl⟩
  | cons hd tl ih =>
    intro s mid st sl hmid hm hst hsl hslle hrows
    obtain ⟨ts, v, ty⟩ := hd
    have hw := hrows (ts, v, ty) (List.mem_cons_self _ _)
    rw [replayRows_cons, writeValue_ok ts v hmid hm hst hw.1 hw.2 hsl hslle]
    dsimp only
    obtain ⟨h1, h2, h3⟩ := ih hmid
      (show ({ s with values := fun m j =>
                         if m = mid ∧ j = (Int.fmod (Int.fdiv ts st) sl).toNat
                         then some ⟨(Int.fdiv ts st).toNat, v, FLAG_VALID⟩
                         else s.values m j } : State).meta mid = some (st, sl, 0) from hm)
      hst hsl hslle (fun x hx => hrows x (List.mem_cons_of_mem _ hx))
    refine ⟨h1, ?_, ?_⟩
    · rw [h2]
    · have hvals : ({ s with values := fun m j =>
                               if m = mid ∧ j = (Int.fmod (Int.fdiv ts st) sl).toNat
                               then some ⟨(Int.fdiv ts st).toNat, v, FLAG_VALID⟩
                               else s.values m j } : State).values mid =
          ringWrite st sl (s.values mid) ts v := by
        funext j
        dsimp only [ringWrite]
        by_cases hj : j = (Int.fmod (Int.fdiv ts st) sl).toNat
        · rw [if_pos ⟨rfl, hj⟩, if_pos hj]
        · rw [if_neg (fun hc => hj hc.2), if_neg hj]
      rw [h3, hvals]
      rfl

/-- Re-registering a deleted metric by explicit id: with the key spaces at
`mid` cleared and the descriptor key unbound, `ensure_metric_descriptor`
returns `mid`, stores the new `(step, slots, 0)` meta and keeps the value
keyspace. -/
theorem ensureMetricDescriptor_recreate (db : Tsdb) {s1 : State} {mid : Nat}
    {step slots : Int} {n? : Option String} {tg : Tags}
    (hmid : mid ≤ U32MAX) (hst : 0 < step) (hsl : 0 < slots)
    (hfits : fitsMetaFmt step slots 0)
    (hm1 : s1.meta mid = none) (hi1 : s1.metaInfo mid = none)
    (hnd : (tagKeys tg).Nodup)
    (hunb : ∀ nmx, n? = some nmx → nmx ≠ "" →
      s1.descriptors nmx (descriptorKeyTags tg) = none) :
    ∃ s3, ensureMetricDescriptor db s1 (some mid) 0 (some step) (some slots) n? (some tg) =
        Except.ok (mid, s3) ∧ s3.meta mid = some (step, slots, 0) ∧
        s3.values = s1.values := by
  have hlknone : (if (n?.getD "") ≠ "" then lookupDescriptorTr s1 (n?.getD "") tg
      else none) = none := by
    by_cases hx : n?.getD "" = ""
    · rw [if_neg (fun hc => hc hx)]
    · rw [if_pos hx]
      unfold lookupDescriptorTr
      cases n? with
      | none => exact absurd rfl hx
      | some nm0 => exact hunb nm0 rfl hx
  obtain ⟨s2', hemi, h2m, h2v, h2d⟩ :=
    ensureMetaInfo_none_exists
      { s1 with meta := fun m => if m = mid then some (step, slots, 0) else s1.meta m }
      mid (if n?.getD "" = "" then none else some (n?.getD "")) hi1 hnd
  have hunb2 : ∀ nmx, (if n?.getD "" = "" then none else some (n?.getD "")) = some nmx →
      nmx ≠ "" → s2'.descriptors nmx (descriptorKeyTags tg) = none := by
    intro nmx hx hne
    by_cases hg : n?.getD "" = ""
    · rw [if_pos hg] at hx
      cases hx
    · rw [if_neg hg] at hx
      obtain rfl : n?.getD "" = nmx := by injection hx
      rw [h2d]
      cases n? with
      | none => exact absurd rfl hg
      | some nm0 => exact hunb nm0 rfl hne
  obtain ⟨s3, hedt, h3m, h3v, h3i⟩ := ensureDescriptorTr_ok_of_unbound s2' mid hunb2
  refine ⟨s3, ?_, ?_, ?_⟩
  · unfold ensureMetricDescriptor
    dsimp only
    rw [ensureU32_ok hmid]
    dsimp only
    rw [orDefault_some (by omega), orDefault_some (by omega)]
    simp only [Option.getD_some]
    rw [if_neg (by simp), hlknone]
    dsimp only
    rw [if_pos hfits, hm1]
    dsimp only
    rw [hemi]
    dsimp only
    rw [hedt]
  · rw [h3m, h2m]
    dsimp only
    rw [if_pos rfl]
  · rw [h3v, h2v]

/-- **C7.** Retention rewrite is permitted only for gauges: on a counter
metric (`type=1`) `rewrite_metric_retention` fails with the validation error
and leaves the store unchanged; on a stored gauge metric with positive new
`(step, slots)` it succeeds, snapshots the visible samples with a full-range
read, deletes and recreates the metric with the new `(step, slots)` meta,
and replays the snapshot sample by sample into the fresh ring. -/
theorem retention_rewrite_spec {db : Tsdb} {s : State} {mid : Nat} {step slots : Int}
    (hmid : mid ≤ U32MAX) (hstep : 0 < step) (hslots : 0 < slots) :
    (∀ os ol, s.meta mid = some (os, ol, 1) →
      rewriteMetricRetention db s mid step slots =
        (some "retention rewrite only supported for gauge metrics", s)) ∧
    (∀ os ol rows, s.meta mid = some (os, ol, 0) →
      step < I32LIM → slots < I32LIM →
      (∀ i, s.metaInfo mid = some i → (tagKeys i.tags).Nodup) →
      readRange s mid 0 (2 ^ 63 - 1) = Except.ok rows →
      (∀ x ∈ rows, Int.fdiv x.1 step ≤ (U32MAX : Int)) →
      (rewriteMetricRetention db s mid step slots).1 = none ∧
        (rewriteMetricRetention db s mid step slots).2.meta mid =
          some (step, slots, 0) ∧
        (rewriteMetricRetention db s mid step slots).2.values mid =
          ringReplay step slots (fun _ => none) rows) := by
  refine ⟨?_, ?_⟩
  · intro os ol hmc
    unfold rewriteMetricRetention
    rw [if_neg (by omega), ensureU32_ok hmid]
    dsimp only
    rw [hmc]
    dsimp only
    rw [if_pos (by decide)]
  · intro os ol rows hm0 hstI hslI hwf hrd hwin
    have hfits : fitsMetaFmt step slots 0 := by
      unfold fitsMetaFmt
      unfold I32LIM at hstI hslI ⊢
      omega
    have hsl32 : slots ≤ (U32MAX : Int) + 1 := by
      unfold I32LIM at hslI
      unfold U32MAX
      push_cast
      omega
    have hwb : ∀ x ∈ rows, 0 ≤ Int.fdiv x.1 step ∧ Int.fdiv x.1 step ≤ (U32MAX : Int) := by
      intro x hx
      exact ⟨Int.fdiv_nonneg ((readRange_ok_mem hm0 hrd x hx).2.1) (le_of_lt hstep),
        hwin x hx⟩
    obtain ⟨s1, hdel, hs1m, hs1v, hs1i, hs1d⟩ := deleteMetric_ok hmid hm0
    have hm1 : s1.meta mid = none := by
      rw [hs1m]
      dsimp only
      rw [if_pos rfl]
    have hi1 : s1.metaInfo mid = none := by
      rw [hs1i]
      dsimp only
      rw [if_pos rfl]
    have hnd : (tagKeys (((s.metaInfo mid).map MetaInfo.tags).getD [])).Nodup := by
      cases hsm : s.metaInfo mid with
      | none => exact List.nodup_nil
      | some i => exact hwf i hsm
    have hunb : ∀ nmx, (s.metaInfo mid).map MetaInfo.name = some nmx → nmx ≠ "" →
        s1.descriptors nmx
          (descriptorKeyTags (((s.metaInfo mid).map MetaInfo.tags).getD [])) = none := by
      intro nmx hx hne
      rw [hs1d]
      dsimp only
      have hg : (((s.metaInfo mid).map MetaInfo.name).getD "") = nmx := by
        rw [hx]
        rfl
      rw [hg, if_pos ⟨hne, rfl, rfl⟩]
    obtain ⟨s3, hens, h3meta, h3vals⟩ :=
      ensureMetricDescriptor_recreate db hmid hstep hslots hfits hm1 hi1 hnd hunb
    obtain ⟨r1, r2, r3⟩ := replayRows_ok hmid h3meta hstep hslots hsl32 hwb
    have hv3 : s3.values mid = (fun _ => none : Nat → Option ValueRecord) := by
      rw [h3vals, hs1v]
      funext j
      dsimp only
      rw [if_pos rfl]
    unfold rewriteMetricRetention
    rw [if_neg (by omega), ensureU32_ok hmid]
    dsimp only
    rw [hm0]
    dsimp only
    rw [if_neg (by decide)]
    rw [hrd]
    dsimp only
    rw [hdel]
    dsimp only
    rw [hens]
    dsimp only
    exact ⟨r1, by rw [r2]; exact h3meta, by rw [r3, hv3]⟩

/-- Witness for C7: the counter metric 11 is rejected unchanged, and the
gauge metric 12 with samples at ts 2 and 3 is rebucketed into a fresh
`step=2, slots=8` ring. -/
theorem retention_rewrite_spec_witness :
    rewriteMetricRetention initTsdb rewriteState11 11 2 8 =
      (some "retention rewrite only supported for gauge metrics", rewriteState11) ∧
    ((rewriteMetricRetention initTsdb rewriteGaugeState12 12 2 8).1 = none ∧
      (rewriteMetricRetention initTsdb rewriteGaugeState12 12 2 8).2.meta 12 =
        some (2, 8, 0) ∧
      (rewriteMetricRetention initTsdb rewriteGaugeState12 12 2 8).2.values 12 =
        ringReplay 2 8 (fun _ => none) [(2, 20, 0), (3, 30, 0)]) :=
  ⟨(retention_rewrite_spec (by decide) (by decide) (by decide)).1 5 6 rfl,
   (retention_rewrite_spec (by decide) (by decide) (by decide)).2 1 4
     [(2, 20, 0), (3, 30, 0)] rfl (by decide) (by decide)
     (fun i hi => by
       have h2 : (⟨"", []⟩ : MetaInfo) = i := by injection hi
       rw [← h2]
       exact List.nodup_nil)
     rfl (by decide)⟩

/-- A `filterMap` whose function always hits is a `map`. -/
theorem filterMap_eq_map_of_some {α β : Type} {f : α → Option β} {g : α → β} :
    ∀ {l : List α}, (∀ x ∈ l, f x = some (g x)) → l.filterMap f = l.map g := by
  intro l
  induction l with
  | nil => intro _; rfl
  | cons a l ih =>
    intro h
    rw [List.filterMap_cons_some (h a (List.mem_cons_self _ _)), List.map_cons,
      ih (fun x hx => h x (List.mem_cons_of_mem _ hx))]

/-- A `ts`-sorted permutation of a strictly `ts`-increasing row list is that
list. -/
theorem eq_of_perm_of_sorted_strict :
    ∀ {t l : List Sample}, l.Perm t → l.Sorted tsLe → t.Pairwise tsLt → l = t := by
  intro t
  induction t with
  | nil =>
    intro l hp _ _
    exact hp.eq_nil
  | cons x t' ih =>
    intro l hp hl ht
    have hx : x ∈ l := hp.mem_iff.mpr (List.mem_cons_self x t')
    cases l with
    | nil => cases hx
    | cons y l' =>
      by_cases hyx : y = x
      · subst hyx
        rw [ih hp.cons_inv hl.of_cons (List.Pairwise.of_cons ht)]
      · exfalso
        have hy : y ∈ x :: t' := hp.mem_iff.mp (List.mem_cons_self y l')
        have hy' : y ∈ t' := by
          rcases List.mem_cons.mp hy with h | h
          · exact absurd h hyx
          · exact h
        have hxy : tsLt x y := (List.pairwise_cons.mp ht).1 y hy'
        have hx' : x ∈ l' := by
          rcases List.mem_cons.mp hx with h | h
          · exact absurd h.symm hyx
          · exact h
        have hyxle : tsLe y x := (List.sorted_cons.mp hl).1 x hx'
        unfold tsLt at hxy
        unfold tsLe at hyxle
        omega

/-- Shifting then reducing mod `S` permutes `range S`. -/
theorem perm_map_mod_range (B S : Nat) (hS : 0 < S) :
    ((List.range S).map (fun t => (B + t) % S)).Perm (List.range S) := by
  have hnd1 : ((List.range S).map (fun t => (B + t) % S)).Nodup := by
    refine List.Nodup.map_on ?_ (List.nodup_range _)
    intro t1 h1 t2 h2 he
    rw [List.mem_range] at h1 h2
    have h3 := Nat.ModEq.add_left_cancel' B (he : (B + t1) % S = (B + t2) % S)
    rwa [Nat.ModEq, Nat.mod_eq_of_lt h1, Nat.mod_eq_of_lt h2] at h3
  refine List.perm_of_nodup_nodup_toFinset_eq hnd1 (List.nodup_range _) ?_
  refine Finset.eq_of_subset_of_card_le ?_ ?_
  · intro x hx
    rw [List.mem_toFinset] at hx ⊢
    rw [List.mem_map] at hx
    obtain ⟨t, _, rfl⟩ := hx
    rw [List.mem_range]
    exact Nat.mod_lt _ hS
  · rw [List.toFinset_card_of_nodup hnd1, List.toFinset_card_of_nodup (List.nodup_range _),
      List.length_map, List.length_range]

/-- Splitting a write sequence. -/
theorem ringWriteMany_append (st sl : Int) :
    ∀ (l1 l2 : List (Int × ℚ)) (r : Nat → Option ValueRecord),
      ringWriteMany st sl r (l1 ++ l2) =
        ringWriteMany st sl (ringWriteMany st sl r l1) l2 := by
  intro l1
  induction l1 with
  | nil => intro l2 r; rfl
  | cons hd tl ih =>
    intro l2 r
    obtain ⟨ts, v⟩ := hd
    rw [List.cons_append]
    rw [show ringWriteMany st sl r ((ts, v) :: (tl ++ l2)) =
      ringWriteMany st sl (ringWrite st sl r ts v) (tl ++ l2) from rfl]
    rw [show ringWriteMany st sl r ((ts, v) :: tl) =
      ringWriteMany st sl (ringWrite st sl r ts v) tl from rfl]
    exact ih l2 _

/-- One write at the exact window `x` updates slot `x % S`. -/
theorem ringWrite_slot_eq {P S : Int} (hP : 0 < P) (hS : 0 < S)
    (r : Nat → Option ValueRecord) (x : Nat) (v : ℚ) :
    ringWrite P S r ((x : Int) * P) v =
      (fun j => if j = x % S.toNat then some ⟨x, v, FLAG_VALID⟩ else r j) := by
  have hfm : (Int.fmod ((x : Nat) : Int) S).toNat = x % S.toNat := by
    rw [show S = ((S.toNat : Nat) : Int) from (Int.toNat_of_nonneg hS.le).symm,
      ← Int.ofNat_fmod]
    simp only [Int.toNat_ofNat]
  funext j
  unfold ringWrite
  rw [Int.mul_fdiv_cancel _ (ne_of_gt hP), hfm, Int.toNat_ofNat]

/-- Consecutive-window writes: the slot of window `w + i` still holds that
write after all later writes of the first `c + 1` windows whenever no later
window shares its slot (`c < i + S`). -/
theorem ringWriteMany_last_wins {P S : Int} (hP : 0 < P) (hS : 0 < S)
    (w : Nat) (f : Nat → ℚ) (r0 : Nat → Option ValueRecord) :
    ∀ c, ∀ i, i ≤ c → c < i + S.toNat →
      ringWriteMany P S r0 ((List.range (c + 1)).map
          (fun n => (((w + n : Nat) : Int) * P, f n))) ((w + i) % S.toNat) =
        some ⟨w + i, f i, FLAG_VALID⟩ := by
  intro c
  induction c with
  | zero =>
    intro i hi _
    obtain rfl : i = 0 := Nat.le_zero.mp hi
    rw [show List.range 1 = [0] from rfl, List.map_cons, List.map_nil]
    rw [show ringWriteMany P S r0 [(((w + 0 : Nat) : Int) * P, f 0)] =
      ringWrite P S r0 (((w + 0 : Nat) : Int) * P) (f 0) from rfl]
    rw [ringWrite_slot_eq hP hS r0 (w + 0) (f 0)]
    dsimp only
    rw [if_pos rfl]
  | succ c ih =>
    intro i hi hlt
    rw [List.range_succ, List.map_append, ringWriteMany_append]
    rw [List.map_cons, List.map_nil]
    rw [show ringWriteMany P S
        (ringWriteMany P S r0 ((List.range (c + 1)).map
          (fun n => (((w + n : Nat) : Int) * P, f n))))
        [(((w + (c + 1) : Nat) : Int) * P, f (c + 1))] =
      ringWrite P S
        (ringWriteMany P S r0 ((List.range (c + 1)).map
          (fun n => (((w + n : Nat) : Int) * P, f n))))
        (((w + (c + 1) : Nat) : Int) * P) (f (c + 1)) from rfl]
    rw [ringWrite_slot_eq hP hS _ (w + (c + 1)) (f (c + 1))]
    dsimp only
    by_cases hic : i = c + 1
    · subst hic
      rw [if_pos rfl]
    · have hi' : i ≤ c := by omega
      have hSpos : 0 < S.toNat := by omega
      have hne : (w + i) % S.toNat ≠ (w + (c + 1)) % S.toNat := by
        intro he
        have hdvd := (Nat.modEq_iff_dvd' (by omega : w + i ≤ w + (c + 1))).mp
          (he : (w + i) % S.toNat = (w + (c + 1)) % S.toNat)
        have hle := Nat.le_of_dvd (by omega) hdvd
        omega
      rw [if_neg hne]
      exact ih i hi' (by omega)

/-- After writing the consecutive windows `w .. w+k` with `S ≤ k + 1`, slot
`j < S` holds the last window congruent to `j`. -/
theorem ring_final_slot {P S : Int} (hP : 0 < P) (hS : 0 < S) (w k : Nat)
    (f : Nat → ℚ) (r0 : Nat → Option ValueRecord) (hSk : S.toNat ≤ k + 1) :
    ∀ j < S.toNat,
      ringWriteMany P S r0 ((List.range (k + 1)).map
          (fun n => (((w + n : Nat) : Int) * P, f n))) j =
        some ⟨w + (k - ((w + k) - j) % S.toNat), f (k - ((w + k) - j) % S.toNat),
          FLAG_VALID⟩ := by
  intro j hj
  have hSpos : 0 < S.toNat := by omega
  have hd : ((w + k) - j) % S.toNat < S.toNat := Nat.mod_lt _ hSpos
  have hdm := Nat.div_add_mod ((w + k) - j) S.toNat
  have hj' : j ≤ k := by omega
  have hslot : (w + (k - ((w + k) - j) % S.toNat)) % S.toNat = j := by
    have he : w + (k - ((w + k) - j) % S.toNat) =
        j + S.toNat * (((w + k) - j) / S.toNat) := by omega
    rw [he, Nat.add_mul_mod_self_left, Nat.mod_eq_of_lt hj]
  have hkey := ringWriteMany_last_wins hP hS w f r0 k (k - ((w + k) - j) % S.toNat)
    (by omega) (by omega)
  rw [hslot] at hkey
  exact hkey

/-- Unfolding of one step of `writeMany`. -/
theorem writeMany_cons (s : State) (mid : Nat) (ts : Int) (v : ℚ)
    (rest : List (Int × ℚ)) :
    writeMany s mid ((ts, v) :: rest) =
      match writeValue s mid ts v with
      | Except.error e => Except.error e
      | Except.ok s1 => writeMany s1 mid rest := rfl

/-- A sequence of in-range writes succeeds, keeps the meta keyspace and
applies exactly the corresponding slot updates. -/
theorem writeMany_ok {ws : List (Int × ℚ)} :
    ∀ {s : State} {mid : Nat} {st sl : Int} {ty : Nat},
      mid ≤ U32MAX → s.meta mid = some (st, sl, ty) → 0 < st → 0 < sl →
      sl ≤ (U32MAX : Int) + 1 →
      (∀ x ∈ ws, 0 ≤ Int.fdiv x.1 st ∧ Int.fdiv x.1 st ≤ (U32MAX : Int)) →
      ∃ s2, writeMany s mid ws = Except.ok s2 ∧ s2.meta = s.meta ∧
        s2.values mid = ringWriteMany st sl (s.values mid) ws := by
  induction ws with
  | nil =>
    intro s mid st sl ty _ _ _ _ _ _
    exact ⟨s, rfl, rfl, rfl⟩
  | cons hd tl ih =>
    intro s mid st sl ty hmid hm hst hsl hslle hws
    obtain ⟨ts, v⟩ := hd
    have hw := hws (ts, v) (List.mem_cons_self _ _)
    obtain ⟨s2, h1, h2, h3⟩ := ih hmid
      (show ({ s with values := fun m j =>
                         if m = mid ∧ j = (Int.fmod (Int.fdiv ts st) sl).toNat
                         then some ⟨(Int.fdiv ts st).toNat, v, FLAG_VALID⟩
                         else s.values m j } : State).meta mid = some (st, sl, ty) from hm)
      hst hsl hslle (fun x hx => hws x (List.mem_cons_of_mem _ hx))
    refine ⟨s2, ?_, ?_, ?_⟩
    · rw [writeMany_cons, writeValue_ok ts v hmid hm hst hw.1 hw.2 hsl hslle]
      dsimp only
      exact h1
    · rw [h2]
    · rw [h3]
      have hvals : ({ s with values := fun m j =>
                         if m = mid ∧ j = (Int.fmod (Int.fdiv ts st) sl).toNat
                         then some ⟨(Int.fdiv ts st).toNat, v, FLAG_VALID⟩
                         else s.values m j } : State).values mid =
          ringWrite st sl (s.values mid) ts v := by
        funext j
        dsimp only [ringWrite]
        by_cases hj : j = (Int.fmod (Int.fdiv ts st) sl).toNat
        · rw [if_pos ⟨rfl, hj⟩, if_pos hj]
        · rw [if_neg (fun hc => hj hc.2), if_neg hj]
      rw [hvals]
      rfl

/-- **C1 (amended: consecutive windows).** For a gauge ring with `step=P`
and `slots=S`, writing the consecutive windows `w, w+1, …, w+k` with
`S ≤ k+1` (history wider than the ring) and then reading the full span
returns exactly the `S` most recent samples, in window order. -/
theorem ring_wrap_consecutive {s : State} {mid : Nat} {P S : Int} {w k : Nat}
    (f : Nat → ℚ)
    (hmid : mid ≤ U32MAX) (hm : s.meta mid = some (P, S, 0))
    (hP : 0 < P) (hS : 0 < S) (hSle : S ≤ (U32MAX : Int) + 1)
    (hSk : S.toNat ≤ k + 1) (hwk : w + k ≤ U32MAX) :
    ∃ s2,
      writeMany s mid ((List.range (k + 1)).map
        (fun n => (((w + n : Nat) : Int) * P, f n))) = Except.ok s2 ∧
      readRange s2 mid (((w : Nat) : Int) * P) (((w + k : Nat) : Int) * P) =
        Except.ok ((List.range S.toNat).map
          (fun t => (((w + (k + 1 - S.toNat) + t : Nat) : Int) * P,
            f (k + 1 - S.toNat + t), 0))) := by
  have hS0 : 0 < S.toNat := by omega
  have hws : ∀ x ∈ (List.range (k + 1)).map (fun n => (((w + n : Nat) : Int) * P, f n)),
      0 ≤ Int.fdiv x.1 P ∧ Int.fdiv x.1 P ≤ (U32MAX : Int) := by
    intro x hx
    obtain ⟨n, hn, rfl⟩ := List.mem_map.mp hx
    rw [List.mem_range] at hn
    dsimp only
    rw [Int.mul_fdiv_cancel _ (ne_of_gt hP)]
    refine ⟨Int.ofNat_nonneg _, ?_⟩
    exact_mod_cast (by omega : w + n ≤ U32MAX)
  obtain ⟨s2, hwm, h2meta, h2vals⟩ := writeMany_ok hmid hm hP hS hSle hws
  refine ⟨s2, hwm, ?_⟩
  have hmem : s2.meta mid = some (P, S, 0) := by rw [h2meta]; exact hm
  have hslotval : ∀ j, j < S.toNat → s2.values mid j =
      some ⟨w + (k - ((w + k) - j) % S.toNat), f (k - ((w + k) - j) % S.toNat),
        FLAG_VALID⟩ := by
    intro j hj
    rw [h2vals]
    exact ring_final_slot hP hS w k f (s.values mid) hSk j hj
  have hscan : ∀ j, j < S.toNat →
      scanSlot s2 mid (((w : Nat) : Int) * P) (((w + k : Nat) : Int) * P) 0 P j =
        some ((((w + (k - ((w + k) - j) % S.toNat) : Nat)) : Int) * P,
          f (k - ((w + k) - j) % S.toNat), 0) := by
    intro j hj
    have hdj : ((w + k) - j) % S.toNat < S.toNat := Nat.mod_lt _ hS0
    unfold scanSlot
    rw [hslotval j hj]
    dsimp only
    rw [if_neg (by decide)]
    rw [if_neg (by
      push_neg
      constructor
      · refine mul_le_mul_of_nonneg_right ?_ hP.le
        exact_mod_cast (by omega : w ≤ w + (k - ((w + k) - j) % S.toNat))
      · refine mul_le_mul_of_nonneg_right ?_ hP.le
        exact_mod_cast (by omega : w + (k - ((w + k) - j) % S.toNat) ≤ w + k))]
  have hR : ∀ (rot : List Nat), (∀ j ∈ rot, j < S.toNat) →
      rot.Perm (List.range S.toNat) →
      sortSamples (rot.filterMap
          (scanSlot s2 mid (((w : Nat) : Int) * P) (((w + k : Nat) : Int) * P) 0 P)) =
        (List.range S.toNat).map
          (fun t => (((w + (k + 1 - S.toNat) + t : Nat) : Int) * P,
            f (k + 1 - S.toNat + t), 0)) := by
    intro rot hrm hperm
    rw [filterMap_eq_map_of_some (fun j hj => hscan j (hrm j hj))]
    refine eq_of_perm_of_sorted_strict ?_ ?_ ?_
    · refine (List.perm_insertionSort tsLe _).trans ?_
      refine (hperm.map _).trans ?_
      have htarget : (List.range S.toNat).map
          (fun t => (((w + (k + 1 - S.toNat) + t : Nat) : Int) * P,
            f (k + 1 - S.toNat + t), 0)) =
          ((List.range S.toNat).map (fun t => (w + (k + 1 - S.toNat) + t) % S.toNat)).map
            (fun j => (((w + (k - ((w + k) - j) % S.toNat) : Nat) : Int) * P,
              f (k - ((w + k) - j) % S.toNat), 0)) := by
        rw [List.map_map]
        refine List.map_congr_left ?_
        intro t ht
        rw [List.mem_range] at ht
        dsimp only [Function.comp]
        have h1 := Nat.div_add_mod (w + (k + 1 - S.toNat) + t) S.toNat
        have h2 : (w + (k + 1 - S.toNat) + t) % S.toNat < S.toNat := Nat.mod_lt _ hS0
        have hmod : ((w + k) - ((w + (k + 1 - S.toNat) + t) % S.toNat)) % S.toNat =
            (w + k) - (w + (k + 1 - S.toNat) + t) := by
          have hkeyq : (w + k) - ((w + (k + 1 - S.toNat) + t) % S.toNat) =
              ((w + k) - (w + (k + 1 - S.toNat) + t)) +
                S.toNat * ((w + (k + 1 - S.toNat) + t) / S.toNat) := by omega
          rw [hkeyq, Nat.add_mul_mod_self_left]
          exact Nat.mod_eq_of_lt (by omega)
        rw [hmod]
        rw [show k - ((w + k) - (w + (k + 1 - S.toNat) + t)) = k + 1 - S.toNat + t
          from by omega]
        rw [show w + (k + 1 - S.toNat + t) = w + (k + 1 - S.toNat) + t
          from by omega]
      rw [htarget]
      exact ((perm_map_mod_range (w + (k + 1 - S.toNat)) S.toNat hS0).map _).symm
    · exact List.sorted_insertionSort tsLe _
    · rw [List.pairwise_map]
      refine List.Pairwise.imp ?_ (List.pairwise_lt_range _)
      intro a b hab
      unfold tsLt
      dsimp only
      refine mul_lt_mul_of_pos_right ?_ hP
      exact_mod_cast (by omega : w + (k + 1 - S.toNat) + a < w + (k + 1 - S.toNat) + b)
  unfold readRange
  rw [if_neg (by
    rw [not_lt]
    refine mul_le_mul_of_nonneg_right ?_ hP.le
    exact_mod_cast (by omega : w ≤ w + k))]
  rw [ensureU32_ok hmid]
  dsimp only
  rw [hmem]
  dsimp only
  rw [if_neg (by omega)]
  rw [Int.mul_fdiv_cancel _ (ne_of_gt hP), Int.mul_fdiv_cancel _ (ne_of_gt hP)]
  rw [if_neg (by
    rw [not_lt]
    exact_mod_cast (by omega : w ≤ w + k))]
  rw [show min S ((((w + k : Nat) : Int)) - ((w : Nat) : Int) + 1) = S from by
    refine min_eq_left ?_
    push_cast
    omega]
  rw [if_neg (by omega)]
  rw [show (Int.fmod ((w : Nat) : Int) S).toNat = w % S.toNat from by
    rw [show S = ((S.toNat : Nat) : Int) from (Int.toNat_of_nonneg hS.le).symm,
      ← Int.ofNat_fmod]
    simp only [Int.toNat_ofNat]]
  refine congrArg Except.ok ?_
  have hstlt : w % S.toNat < S.toNat := Nat.mod_lt _ hS0
  by_cases hst0 : w % S.toNat = 0
  · rw [hst0]
    rw [show segmentsFor 0 S.toNat S.toNat = [(0, S.toNat - 1)] from by
      unfold segmentsFor
      rw [if_neg (by omega), if_pos (by omega)]
      rw [show 0 + S.toNat - 1 = S.toNat - 1 from by omega]]
    unfold scanSegments
    simp only [List.flatMap_cons, List.flatMap_nil, List.append_nil]
    rw [show S.toNat - 1 + 1 - 0 = S.toNat from by omega]
    rw [show List.range' 0 S.toNat = List.range S.toNat from (List.range_eq_range' _).symm]
    exact hR (List.range S.toNat) (fun j hj => List.mem_range.mp hj) (List.Perm.refl _)
  · rw [show segmentsFor (w % S.toNat) S.toNat S.toNat =
        [(w % S.toNat, S.toNat - 1), (0, w % S.toNat - 1)] from by
      unfold segmentsFor
      rw [if_neg (by omega), if_neg (by omega)]
      rw [show S.toNat - (S.toNat - w % S.toNat) - 1 = w % S.toNat - 1 from by omega]]
    unfold scanSegments
    simp only [List.flatMap_cons, List.flatMap_nil, List.append_nil]
    rw [show S.toNat - 1 + 1 - w % S.toNat = S.toNat - w % S.toNat from by omega]
    rw [show w % S.toNat - 1 + 1 - 0 = w % S.toNat from by omega]
    rw [← List.filterMap_append]
    have happend := List.range'_append 0 (w % S.toNat) (S.toNat - w % S.toNat) 1
    rw [show 0 + 1 * (w % S.toNat) = w % S.toNat from by omega] at happend
    rw [show S.toNat - w % S.toNat + w % S.toNat = S.toNat from by omega] at happend
    refine hR _ ?_ ?_
    · intro j hj
      rcases List.mem_append.mp hj with h | h
      · have := List.mem_range'_1.mp h
        omega
      · have := List.mem_range'_1.mp h
        omega
    · refine List.Perm.trans List.perm_append_comm ?_
      rw [happend]
      rw [show List.range' 0 S.toNat = List.range S.toNat from (List.range_eq_range' _).symm]

/-- Counterexample to C1 as stated: on the `step=1, slots=3` gauge metric 7,
the windows 0, 1, 3 span a range of width 4 > 3, yet reading the full
history returns only two samples -- the write at window 3 overwrote the
slot of window 0 -- not the three most recently written samples. -/
theorem ring_wrap_counterexample :
    (writeMany ringState3 7 [((0 : Int), (10 : ℚ)), (1, 11), (3, 13)]).bind
        (fun s2 => readRange s2 7 0 3) =
      Except.ok [((1 : Int), (11 : ℚ), 0), (3, 13, 0)] ∧
    [((1 : Int), (11 : ℚ), 0), (3, 13, 0)] ≠
      [((0 : Int), (10 : ℚ), 0), (1, 11, 0), (3, 13, 0)] := by
  constructor
  · rfl
  · decide

/-- Witness for the amended C1 at `step=1, slots=3`, windows `100 .. 103`,
values `0, 1, 2, 3`: the read returns the last three samples in order. -/
theorem ring_wrap_consecutive_witness :
    ∃ s2,
      writeMany ringState3 7 ((List.range 4).map
        (fun n => (((100 + n : Nat) : Int) * 1, ((n : Nat) : ℚ)))) = Except.ok s2 ∧
      readRange s2 7 (((100 : Nat) : Int) * 1) (((100 + 3 : Nat) : Int) * 1) =
        Except.ok ((List.range 3).map
          (fun t => (((100 + (3 + 1 - 3) + t : Nat) : Int) * 1,
            (((3 + 1 - 3 + t : Nat) : Nat) : ℚ), 0))) :=
  @ring_wrap_consecutive ringState3 7 1 3 100 3 (fun n => ((n : Nat) : ℚ))
    (by decide) rfl (by decide) (by decide) (by decide) (by decide) (by decide)

end Biscuit
